import Mathlib

/-!
# AoC voice PCM driver (`alsa/aoc_alsa_voice.c`): position tracking and stream lifecycle

A shallow embedding of the timer handler `aoc_pcm_timer_irq_handler` and of the PCM
callbacks `snd_aoc_pcm_open`, `snd_aoc_pcm_close`, `snd_aoc_pcm_hw_params` and
`snd_aoc_pcm_prepare`.

Conventions of the embedding.

* C pointers to `struct aoc_alsa_stream` are addresses (`Nat`) into a heap; `kzalloc`
  hands out the next unused address.
* Every call that leaves the file (the AoC service layer, ALSA core, the mutex, the
  allocator) takes its result from an explicit environment argument and leaves an
  `Event` in the trace, in program order.  Logging (`pr_debug`, `pr_err`, `pr_notice`)
  is not modelled.
* `unsigned long` values are natural numbers below `2 ^ 64`; arithmetic on them is
  reduced modulo `2 ^ 64` explicitly (`wrap64`).
* An execution that dereferences a null pointer, divides by zero or frees a record twice
  has no result (`none`).
* Close and Prepare are also given as sequences of statement-level effects
  (`snd_aoc_pcm_close_effects`, `snd_aoc_pcm_prepare_effects`), proved to produce the
  same world as the state-passing functions, so that the order of their calls and stores
  can be stated.
-/

namespace AocVoice

/-! ## Data model -/

/-- Direction of a PCM substream (the value of `substream->stream`). -/
inductive snd_pcm_stream where
  | SNDRV_PCM_STREAM_PLAYBACK
  | SNDRV_PCM_STREAM_CAPTURE
  deriving DecidableEq, Repr

/-- What the callbacks read from a `struct snd_pcm_substream`: the PCM device number
(`substream->pcm->device`) and the direction (`substream->stream`). -/
structure snd_pcm_substream where
  device : Nat
  stream : snd_pcm_stream
  deriving DecidableEq, Repr

/-- Sample formats accepted by the driver (`snd_aoc_playback_hw.formats`). -/
inductive snd_pcm_format where
  | SNDRV_PCM_FORMAT_S8
  | SNDRV_PCM_FORMAT_U8
  | SNDRV_PCM_FORMAT_S16_LE
  | SNDRV_PCM_FORMAT_S24_3LE
  | SNDRV_PCM_FORMAT_S32_LE
  | SNDRV_PCM_FORMAT_FLOAT_LE
  deriving DecidableEq, Repr

/-- ALSA core: the number of significant bits of one sample of a format. -/
def snd_pcm_format_width : snd_pcm_format → Int
  | .SNDRV_PCM_FORMAT_S8 => 8
  | .SNDRV_PCM_FORMAT_U8 => 8
  | .SNDRV_PCM_FORMAT_S16_LE => 16
  | .SNDRV_PCM_FORMAT_S24_3LE => 24
  | .SNDRV_PCM_FORMAT_S32_LE => 32
  | .SNDRV_PCM_FORMAT_FLOAT_LE => 32

/-- Modelled from the spec: `struct aoc_alsa_stream` is declared in `aoc_alsa.h`, which is
not among the sources.  The fields are the ones the five callbacks and the timer handler
touch; their widths follow the data model of the specification (`hw_ptr_base`,
`prev_consumed`, `pos`: unsigned 64 bit; `n_overflow`: unsigned 32 bit; `buffer_size`,
`period_size`: byte counts).  `open_` is the C field `open`; `timer_pending` is the state
of the embedded `struct timer_list` (armed or not). -/
structure aoc_alsa_stream where
  substream : snd_pcm_substream
  dev : Nat
  idx : Nat
  entry_point_idx : Nat
  channels : Int
  params_rate : Int
  pcm_format_width : Int
  pcm_float_fmt : Bool
  period_size : Nat
  buffer_size : Nat
  pos : Nat
  hw_ptr_base : Nat
  prev_consumed : Nat
  n_overflow : Nat
  open_ : Bool
  running : Bool
  draining : Bool
  timer_pending : Bool
  deriving DecidableEq, Repr

/-- The two hardware accumulators of the AoC service rings the driver samples: what
`aoc_ring_bytes_read(service, AOC_DOWN)` and `aoc_ring_bytes_written(service, AOC_UP)`
return at the moment of the call. -/
structure aoc_rings where
  bytes_read_down : Nat
  bytes_written_up : Nat
  deriving DecidableEq, Repr

/-- Calls that leave the file, in the order the code makes them. -/
inductive Event where
  | aoc_timer_start (s : snd_pcm_substream)
  | aoc_timer_stop_sync (s : snd_pcm_substream)
  | timer_setup (s : snd_pcm_substream)
  | snd_pcm_period_elapsed (s : snd_pcm_substream)
  | mutex_lock_interruptible (acquired : Bool)
  | mutex_unlock
  | alloc_aoc_audio_service (ret : Int)
  | free_aoc_audio_service (dev : Nat)
  | kzalloc (p : Option Nat)
  | kfree (p : Option Nat)
  | aoc_audio_open (s : snd_pcm_substream) (ret : Int)
  | aoc_audio_close (s : snd_pcm_substream)
  | aoc_audio_stop (s : snd_pcm_substream) (ret : Int)
  | aoc_audio_set_params (s : snd_pcm_substream) (channels rate width : Int) (is_float : Bool)
      (ret : Int)
  | aoc_audio_setup (s : snd_pcm_substream)
  | teardown_phonecall (s : snd_pcm_substream) (ret : Int)
  | prepare_phonecall (s : snd_pcm_substream) (ret : Int)
  | snd_pcm_lib_malloc_pages (bytes : Nat) (ret : Int)
  deriving DecidableEq, Repr

/-! ## Machine arithmetic -/

/-- Modulus of `unsigned long` on the 64-bit target: `2 ^ 64`. -/
def ULONG_SPACE : Nat := 18446744073709551616

/-- Modulus of the 32-bit `n_overflow` counter: `2 ^ 32`. -/
def UINT_SPACE : Nat := 4294967296

/-- The value an `unsigned long` expression takes when its mathematical value is `z`. -/
def wrap64 (z : Int) : Nat := (z % (ULONG_SPACE : Int)).toNat

/-- The expression
`(substream->stream == SNDRV_PCM_STREAM_PLAYBACK) ? aoc_ring_bytes_read(.., AOC_DOWN)
: aoc_ring_bytes_written(.., AOC_UP)`, as an `unsigned long`. -/
def ring_consumed (st : snd_pcm_stream) (hw : aoc_rings) : Nat :=
  (match st with
   | .SNDRV_PCM_STREAM_PLAYBACK => hw.bytes_read_down
   | .SNDRV_PCM_STREAM_CAPTURE => hw.bytes_written_up) % ULONG_SPACE

/-! ## Timer helpers -/

/-- Modelled from the spec: `aoc_timer_start` lives in another file of the driver; per the
specification (`timer_arm`) it schedules the stream's periodic callback. -/
def aoc_timer_start (a : aoc_alsa_stream) : aoc_alsa_stream :=
  { a with timer_pending := true }

/-- Modelled from the spec: `aoc_timer_stop_sync` lives in another file of the driver; per
the specification (`timer_disarm_and_wait`) it returns once no callback is executing or
pending. -/
def aoc_timer_stop_sync (a : aoc_alsa_stream) : aoc_alsa_stream :=
  { a with timer_pending := false }

/-! ## The timer handler -/

/-- The counter value the handler reads for stream `a` (its local `consumed`). -/
def consumed_of (a : aoc_alsa_stream) (hw : aoc_rings) : Nat :=
  ring_consumed a.substream.stream hw

/-- Embedding of `aoc_pcm_timer_irq_handler`: the stream record after the handler ran and
the calls it made.  `none`: the position update divided by a zero `buffer_size`. -/
def aoc_pcm_timer_irq_handler (a : aoc_alsa_stream) (hw : aoc_rings) :
    Option (aoc_alsa_stream × List Event) :=
  -- Start the timer immediately for next period
  let a := aoc_timer_start a
  let consumed := ring_consumed a.substream.stream hw
  if consumed = a.prev_consumed then
    some (a, [Event.aoc_timer_start a.substream])
  else
    -- To deal with overflow in Tx or Rx
    let a := if consumed < a.prev_consumed then
      { a with n_overflow := (a.n_overflow + 1) % UINT_SPACE } else a
    let a := { a with prev_consumed := consumed }
    -- Update the pcm pointer
    if a.buffer_size = 0 then none
    else
      let a := if a.n_overflow ≠ 0 then
        { a with pos := wrap64 ((consumed : Int) + 0x100000000 * (a.n_overflow : Int)
                                  - (a.hw_ptr_base : Int)) % a.buffer_size }
      else
        { a with pos := wrap64 ((consumed : Int) - (a.hw_ptr_base : Int)) % a.buffer_size }
      some (a, [Event.aoc_timer_start a.substream, Event.snd_pcm_period_elapsed a.substream])

/-- The record left by one timer tick. -/
def tick (a : aoc_alsa_stream) (hw : aoc_rings) : Option aoc_alsa_stream :=
  (aoc_pcm_timer_irq_handler a hw).map Prod.fst

/-- The records left by consecutive timer ticks, one per counter sample, in order. -/
def ticks : aoc_alsa_stream → List aoc_rings → Option (List aoc_alsa_stream)
  | _, [] => some []
  | a, hw :: rest =>
    match tick a hw with
    | none => none
    | some a1 =>
      match ticks a1 rest with
      | none => none
      | some l => some (a1 :: l)

/-! ## The chip registry and the world around the driver -/

/-- Kernel error number `EINTR`. -/
def EINTR : Int := 4

/-- Kernel error number `ENOMEM`. -/
def ENOMEM : Int := 12

/-- Modelled from the spec: `struct aoc_chip` is declared in `aoc_alsa.h`, which is not
among the sources.  `alsa_stream` is the slot array (a slot holds the address of a stream
record or is `NULL`), `opened` the 32-bit mask of open slots. -/
structure aoc_chip where
  alsa_stream : Nat → Option Nat
  opened : Nat

/-- Everything the callbacks read and write: the chip, the allocated stream records by
address, the next address `kzalloc` will hand out, `runtime->private_data` of every
substream, the audio-service sessions currently held, and the calls made so far. -/
structure World where
  chip : aoc_chip
  heap : Nat → Option aoc_alsa_stream
  brk : Nat
  private_data : snd_pcm_substream → Option Nat
  services : List Nat
  trace : List Event

/-- The state before any stream was opened: every slot empty, mask zero. -/
def World.empty : World :=
  { chip := { alsa_stream := fun _ => none, opened := 0 }
    heap := fun _ => none
    brk := 0
    private_data := fun _ => none
    services := []
    trace := [] }

/-- The value of `1 << idx` for the `int` variable `idx`: a 32-bit shift, whose count the
machine takes modulo 32.  For `idx < 32` this is bit `idx`. -/
def int_bit (idx : Nat) : Nat := 1 <<< (idx % 32)

/-- The mask update `opened |= (1 << idx)` on the 32-bit mask. -/
def set_opened (opened idx : Nat) : Nat := (opened ||| int_bit idx) % UINT_SPACE

/-- The mask update `opened &= ~(1 << idx)` on the 32-bit mask: the bits of `opened`
without the bit `1 << idx`. -/
def clear_opened (opened idx : Nat) : Nat :=
  (opened ^^^ (opened &&& int_bit idx)) % UINT_SPACE

/-- The memory `kzalloc(sizeof(struct aoc_alsa_stream))` returns: all fields zero.  The
back pointer `substream` is written before it is ever read, so it is given here. -/
def kzalloc_stream (substream : snd_pcm_substream) : aoc_alsa_stream :=
  { substream := substream, dev := 0, idx := 0, entry_point_idx := 0, channels := 0,
    params_rate := 0, pcm_format_width := 0, pcm_float_fmt := false, period_size := 0,
    buffer_size := 0, pos := 0, hw_ptr_base := 0, prev_consumed := 0, n_overflow := 0,
    open_ := false, running := false, draining := false, timer_pending := false }

/-- Results of the external calls made by one run of `snd_aoc_pcm_open`.
`alloc_ret`, `alloc_dev`: return value of `alloc_aoc_audio_service` and the service it
hands out when it does not fail; `kzalloc_fails`: whether `kzalloc` returns `NULL`. -/
structure open_env where
  lock_interrupted : Bool
  alloc_ret : Int
  alloc_dev : Nat
  kzalloc_fails : Bool
  rings : aoc_rings
  audio_open_ret : Int

/-- Results of the external calls made by one run of `snd_aoc_pcm_close`. -/
structure close_env where
  lock_interrupted : Bool
  teardown_ret : Int
  audio_stop_ret : Int

/-- What `snd_aoc_pcm_hw_params` reads from its `params` argument. -/
structure snd_pcm_hw_params where
  buffer_bytes : Nat
  channels : Int
  rate : Int
  format : snd_pcm_format

/-- Results of the external calls made by one run of `snd_aoc_pcm_prepare`.
`buffer_bytes`, `period_bytes`: `snd_pcm_lib_buffer_bytes` and
`snd_pcm_lib_period_bytes` of the substream. -/
structure prepare_env where
  lock_interrupted : Bool
  set_params_ret : Int
  buffer_bytes : Nat
  period_bytes : Nat
  rings : aoc_rings
  prepare_phonecall_ret : Int

/-! ## The PCM callbacks -/

/-- Embedding of `snd_aoc_pcm_open`: the world after the call and the value returned.
`none`: `aoc_audio_open` failed, and the record freed by `kfree(alsa_stream)` before
`goto out` is freed a second time at `out:`. -/
def snd_aoc_pcm_open (w : World) (substream : snd_pcm_substream) (env : open_env) :
    Option (World × Int) :=
  if env.lock_interrupted then
    some ({ w with trace := w.trace ++ [Event.mutex_lock_interruptible false] }, -EINTR)
  else
    let idx := substream.device
    -- Find the corresponding aoc audio service
    if env.alloc_ret < 0 then
      -- out: alsa_stream and dev are still NULL
      some ({ w with trace := w.trace ++
          [Event.mutex_lock_interruptible true, Event.alloc_aoc_audio_service env.alloc_ret,
           Event.kfree none, Event.mutex_unlock] },
       env.alloc_ret)
    else
      let dev := env.alloc_dev
      let services := dev :: w.services
      if env.kzalloc_fails then
        -- out: alsa_stream is NULL, dev is set
        some ({ w with
            services := services.erase dev
            trace := w.trace ++
              [Event.mutex_lock_interruptible true,
               Event.alloc_aoc_audio_service env.alloc_ret, Event.kzalloc none,
               Event.kfree none, Event.free_aoc_audio_service dev, Event.mutex_unlock] },
         -ENOMEM)
      else
        let p := w.brk
        -- Initialise alsa_stream
        let a : aoc_alsa_stream :=
          { kzalloc_stream substream with
            dev := dev
            idx := idx
            hw_ptr_base := ring_consumed substream.stream env.rings
            prev_consumed := ring_consumed substream.stream env.rings
            n_overflow := 0 }
        if env.audio_open_ret ≠ 0 then
          -- kfree(alsa_stream); goto out, where kfree(alsa_stream) frees it again
          none
        else
          let a := { a with
            open_ := true
            draining := true
            timer_pending := false
            entry_point_idx := substream.device }
          some
            ({ chip :=
                 { alsa_stream := Function.update w.chip.alsa_stream idx (some p)
                   opened := set_opened w.chip.opened idx }
               heap := Function.update w.heap p (some a)
               brk := p + 1
               private_data := Function.update w.private_data substream (some p)
               services := services
               trace := w.trace ++
                 [Event.mutex_lock_interruptible true,
                  Event.alloc_aoc_audio_service env.alloc_ret, Event.kzalloc (some p),
                  Event.aoc_audio_open substream env.audio_open_ret,
                  Event.timer_setup substream, Event.mutex_unlock] },
             0)

/-- Embedding of `snd_aoc_pcm_close`.  `none`: `runtime->private_data` is not a live
stream record (the first statement dereferences it). -/
def snd_aoc_pcm_close (w : World) (substream : snd_pcm_substream) (env : close_env) :
    Option (World × Int) :=
  match w.private_data substream with
  | none => none
  | some p =>
    match w.heap p with
    | none => none
    | some a =>
      let a := aoc_timer_stop_sync a
      if env.lock_interrupted then
        some ({ w with
                heap := Function.update w.heap p (some a)
                trace := w.trace ++
                  [Event.aoc_timer_stop_sync a.substream,
                   Event.mutex_lock_interruptible false] },
              -EINTR)
      else
        -- Stop phone call; free the audio service
        let services := w.services.erase a.dev
        -- Call stop if it is still running
        let was_running := a.running
        let a := if a.running then { a with running := false } else a
        let a := { a with period_size := 0, buffer_size := 0 }
        let was_open := a.open_
        let a := if a.open_ then { a with open_ := false } else a
        some ({ w with
                chip :=
                  { alsa_stream := Function.update w.chip.alsa_stream a.idx none
                    opened := clear_opened w.chip.opened a.idx }
                heap := Function.update w.heap p (some a)
                services := services
                trace := w.trace ++
                  [Event.aoc_timer_stop_sync a.substream,
                   Event.mutex_lock_interruptible true,
                   Event.teardown_phonecall a.substream env.teardown_ret,
                   Event.free_aoc_audio_service a.dev] ++
                  (if was_running then [Event.aoc_audio_stop a.substream env.audio_stop_ret]
                   else []) ++
                  (if was_open then [Event.aoc_audio_close a.substream] else []) ++
                  [Event.mutex_unlock] },
              0)

/-- Embedding of `snd_aoc_pcm_hw_params`; `malloc_ret` is what
`snd_pcm_lib_malloc_pages` returns.  `none`: the allocation succeeded and
`runtime->private_data` is not a live stream record. -/
def snd_aoc_pcm_hw_params (w : World) (substream : snd_pcm_substream)
    (params : snd_pcm_hw_params) (malloc_ret : Int) : Option (World × Int) :=
  let w := { w with
    trace := w.trace ++ [Event.snd_pcm_lib_malloc_pages params.buffer_bytes malloc_ret] }
  if malloc_ret < 0 then some (w, malloc_ret)
  else
    match w.private_data substream with
    | none => none
    | some p =>
      match w.heap p with
      | none => none
      | some a =>
        let a := { a with
          channels := params.channels
          params_rate := params.rate
          pcm_format_width := snd_pcm_format_width params.format
          pcm_float_fmt := decide (params.format = snd_pcm_format.SNDRV_PCM_FORMAT_FLOAT_LE) }
        some ({ w with heap := Function.update w.heap p (some a) }, malloc_ret)

/-- Embedding of `snd_aoc_pcm_prepare`.  `none`: `runtime->private_data` is not a live
stream record. -/
def snd_aoc_pcm_prepare (w : World) (substream : snd_pcm_substream) (env : prepare_env) :
    Option (World × Int) :=
  match w.private_data substream with
  | none => none
  | some p =>
    match w.heap p with
    | none => none
    | some a =>
      let a := aoc_timer_stop_sync a
      if env.lock_interrupted then
        some ({ w with
                heap := Function.update w.heap p (some a)
                trace := w.trace ++
                  [Event.aoc_timer_stop_sync a.substream,
                   Event.mutex_lock_interruptible false] },
              -EINTR)
      else
        let channels := a.channels
        -- in preparation of the stream
        let a1 := { a with
          buffer_size := env.buffer_bytes
          period_size := env.period_bytes
          pos := 0
          hw_ptr_base := ring_consumed substream.stream env.rings
          prev_consumed := ring_consumed substream.stream env.rings
          n_overflow := 0 }
        some ({ w with
                heap := Function.update w.heap p (some a1)
                trace := w.trace ++
                  [Event.aoc_timer_stop_sync a.substream,
                   Event.mutex_lock_interruptible true,
                   Event.aoc_audio_set_params a.substream channels a.params_rate
                     a.pcm_format_width a.pcm_float_fmt env.set_params_ret,
                   Event.aoc_audio_setup a.substream,
                   Event.prepare_phonecall a.substream env.prepare_phonecall_ret,
                   Event.mutex_unlock] },
              env.prepare_phonecall_ret)

/-- One expiry of the timer embedded in the stream record at address `p`: the handler runs
on that record.  `none`: there is no such record, or the handler divides by zero. -/
def timer_tick (w : World) (p : Nat) (hw : aoc_rings) : Option World :=
  match w.heap p with
  | none => none
  | some a =>
    match aoc_pcm_timer_irq_handler a hw with
    | none => none
    | some (a1, ev) =>
      some { w with heap := Function.update w.heap p (some a1), trace := w.trace ++ ev }

/-! ## Operation sequences -/

/-- The operations of the driver, each with the results of its external calls. -/
inductive Op where
  | Open (s : snd_pcm_substream) (env : open_env)
  | Configure (s : snd_pcm_substream) (params : snd_pcm_hw_params) (malloc_ret : Int)
  | Prepare (s : snd_pcm_substream) (env : prepare_env)
  | Tick (p : Nat) (hw : aoc_rings)
  | Close (s : snd_pcm_substream) (env : close_env)

/-- The world after one operation; `none` when the operation has no result. -/
def step (w : World) : Op → Option World
  | Op.Open s env => (snd_aoc_pcm_open w s env).map Prod.fst
  | Op.Configure s params malloc_ret => (snd_aoc_pcm_hw_params w s params malloc_ret).map Prod.fst
  | Op.Prepare s env => (snd_aoc_pcm_prepare w s env).map Prod.fst
  | Op.Tick p hw => timer_tick w p hw
  | Op.Close s env => (snd_aoc_pcm_close w s env).map Prod.fst

/-- The world after a sequence of operations, left to right. -/
def run : World → List Op → Option World
  | w, [] => some w
  | w, op :: rest =>
    match step w op with
    | none => none
    | some w1 => run w1 rest

/-- The states the driver can be in: those produced from the empty registry by some
sequence of operations, under some results of the external calls. -/
inductive Reachable : World → Prop where
  | init : Reachable World.empty
  | step (w w1 : World) (op : Op) : Reachable w → step w op = some w1 → Reachable w1


/-- The discipline the ALSA layer keeps towards the driver, as a condition on one
operation in state `w`: an Open is issued only for an index whose slot is empty, and a
Close only for a substream whose record is open. -/
def op_exclusive (w : World) : Op → Prop
  | Op.Open s _ => w.chip.alsa_stream s.device = none
  | Op.Close s _ =>
    ∃ (p : Nat) (a : aoc_alsa_stream),
      w.private_data s = some p ∧ w.heap p = some a ∧ a.open_ = true
  | _ => True

/-- The states produced from the empty registry by operation sequences that keep the
discipline `op_exclusive` at every step. -/
inductive ReachableExclusive : World → Prop where
  | init : ReachableExclusive World.empty
  | step (w w1 : World) (op : Op) :
      ReachableExclusive w → op_exclusive w op → step w op = some w1 →
      ReachableExclusive w1

/-- An operation stays within the range of slot indices the opened mask can record: an
Open is issued only for a PCM device number below 32. -/
def op_in_range : Op → Prop
  | Op.Open s _ => s.device < 32
  | _ => True

/-- The states produced from the empty registry by operation sequences whose Opens are
all on slot indices in range. -/
inductive ReachableInRange : World → Prop where
  | init : ReachableInRange World.empty
  | step (w w1 : World) (op : Op) :
      ReachableInRange w → op_in_range op → step w op = some w1 → ReachableInRange w1

/-! ## Close and Prepare as sequences of effects -/

/-- One effect of a callback on the world, at the granularity of a source statement: a
call that leaves the file, a store to a field of the stream record, or a store to the
chip registry. -/
inductive Effect where
  | call (e : Event)
  | set_running (v : Bool)
  | set_open (v : Bool)
  | set_period_size (n : Nat)
  | set_buffer_size (n : Nat)
  | set_pos (n : Nat)
  | set_hw_ptr_base (n : Nat)
  | set_prev_consumed (n : Nat)
  | set_n_overflow (n : Nat)
  | clear_slot (idx : Nat)
  | clear_opened_bit (idx : Nat)
  deriving DecidableEq, Repr

/-- The world after the stream record at address `p` was changed by `f`. -/
def store_stream (w : World) (p : Nat) (f : aoc_alsa_stream → aoc_alsa_stream) : World :=
  { w with heap := Function.update w.heap p ((w.heap p).map f) }

/-- The world after one effect of a callback that works on the stream record at address
`p`.  A call is appended to the trace; `aoc_timer_stop_sync` and `aoc_timer_start` act on
the record's timer, `free_aoc_audio_service` releases the session. -/
def apply_effect (p : Nat) (w : World) : Effect → World
  | Effect.call e =>
    let w1 := { w with trace := w.trace ++ [e] }
    match e with
    | Event.aoc_timer_stop_sync _ => store_stream w1 p aoc_timer_stop_sync
    | Event.aoc_timer_start _ => store_stream w1 p aoc_timer_start
    | Event.free_aoc_audio_service dev => { w1 with services := w1.services.erase dev }
    | _ => w1
  | Effect.set_running v => store_stream w p (fun a => { a with running := v })
  | Effect.set_open v => store_stream w p (fun a => { a with open_ := v })
  | Effect.set_period_size n => store_stream w p (fun a => { a with period_size := n })
  | Effect.set_buffer_size n => store_stream w p (fun a => { a with buffer_size := n })
  | Effect.set_pos n => store_stream w p (fun a => { a with pos := n })
  | Effect.set_hw_ptr_base n => store_stream w p (fun a => { a with hw_ptr_base := n })
  | Effect.set_prev_consumed n => store_stream w p (fun a => { a with prev_consumed := n })
  | Effect.set_n_overflow n => store_stream w p (fun a => { a with n_overflow := n })
  | Effect.clear_slot idx =>
    { w with chip := { w.chip with
        alsa_stream := Function.update w.chip.alsa_stream idx none } }
  | Effect.clear_opened_bit idx =>
    { w with chip := { w.chip with opened := clear_opened w.chip.opened idx } }

/-- The world after a sequence of effects, in order. -/
def apply_effects (p : Nat) (w : World) (effs : List Effect) : World :=
  effs.foldl (apply_effect p) w

/-- The effects of `snd_aoc_pcm_close` on a stream whose record is `a` on entry, in the
order of the source statements. -/
def snd_aoc_pcm_close_effects (a : aoc_alsa_stream) (env : close_env) : List Effect :=
  [Effect.call (Event.aoc_timer_stop_sync a.substream),
   Effect.call (Event.mutex_lock_interruptible (!env.lock_interrupted))] ++
  (if env.lock_interrupted then []
   else
     [Effect.call (Event.teardown_phonecall a.substream env.teardown_ret),
      Effect.call (Event.free_aoc_audio_service a.dev)] ++
     (if a.running then
        [Effect.call (Event.aoc_audio_stop a.substream env.audio_stop_ret),
         Effect.set_running false]
      else []) ++
     [Effect.set_period_size 0, Effect.set_buffer_size 0] ++
     (if a.open_ then
        [Effect.set_open false, Effect.call (Event.aoc_audio_close a.substream)]
      else []) ++
     [Effect.clear_slot a.idx, Effect.clear_opened_bit a.idx,
      Effect.call Event.mutex_unlock])

/-- The effects of `snd_aoc_pcm_prepare` on substream `s` whose record is `a` on entry,
in the order of the source statements. -/
def snd_aoc_pcm_prepare_effects (s : snd_pcm_substream) (a : aoc_alsa_stream)
    (env : prepare_env) : List Effect :=
  [Effect.call (Event.aoc_timer_stop_sync a.substream),
   Effect.call (Event.mutex_lock_interruptible (!env.lock_interrupted))] ++
  (if env.lock_interrupted then []
   else
     [Effect.call (Event.aoc_audio_set_params a.substream a.channels a.params_rate
        a.pcm_format_width a.pcm_float_fmt env.set_params_ret),
      Effect.call (Event.aoc_audio_setup a.substream),
      Effect.set_buffer_size env.buffer_bytes,
      Effect.set_period_size env.period_bytes,
      Effect.set_pos 0,
      Effect.set_hw_ptr_base (ring_consumed s.stream env.rings),
      Effect.set_prev_consumed (ring_consumed s.stream env.rings),
      Effect.set_n_overflow 0,
      Effect.call (Event.prepare_phonecall a.substream env.prepare_phonecall_ret),
      Effect.call Event.mutex_unlock])

/-! ## Concrete streams and samples -/


/-- A playback stream as `snd_aoc_pcm_prepare` leaves it when the ring counter reads
`2 ^ 32 + 1000` and the transfer buffer has 1920 bytes. -/
def stream_prepared_high : aoc_alsa_stream :=
  { kzalloc_stream ⟨0, snd_pcm_stream.SNDRV_PCM_STREAM_PLAYBACK⟩ with
    open_ := true
    draining := true
    buffer_size := 1920
    period_size := 480
    hw_ptr_base := 4294968296
    prev_consumed := 4294968296 }

/-- Ring counters reading 40 bytes in both directions. -/
def rings_40 : aoc_rings := ⟨40, 40⟩



/-- A playback stream as `snd_aoc_pcm_open` leaves it when the ring counter reads 0:
no buffer geometry yet (`buffer_size = 0`). -/
def stream_opened : aoc_alsa_stream :=
  { kzalloc_stream ⟨0, snd_pcm_stream.SNDRV_PCM_STREAM_PLAYBACK⟩ with
    open_ := true
    draining := true }

/-- A playback stream as `snd_aoc_pcm_prepare` leaves it when the ring counter reads 0
and the transfer buffer has 1920 bytes in periods of 480. -/
def stream_prepared : aoc_alsa_stream :=
  { stream_opened with buffer_size := 1920, period_size := 480 }

/-- A prepared playback stream whose wrap count has reached the largest 32-bit value
and whose last counter sample was 100. -/
def stream_overflow_max : aoc_alsa_stream :=
  { stream_prepared with n_overflow := 4294967295, prev_consumed := 100 }

/-- Ring counters reading `c` bytes in both directions. -/
def rings_at (c : Nat) : aoc_rings := ⟨c, c⟩


/-- The playback substream of PCM device 0. -/
def playback0 : snd_pcm_substream := ⟨0, snd_pcm_stream.SNDRV_PCM_STREAM_PLAYBACK⟩

/-- The capture substream of PCM device 0. -/
def capture0 : snd_pcm_substream := ⟨0, snd_pcm_stream.SNDRV_PCM_STREAM_CAPTURE⟩

/-- An Open in which every external call succeeds, handing out service `dev`, with the
ring counters reading `c`. -/
def open_ok (dev c : Nat) : open_env :=
  { lock_interrupted := false, alloc_ret := 0, alloc_dev := dev, kzalloc_fails := false,
    rings := rings_at c, audio_open_ret := 0 }

/-- Two channels, 48 kHz, 16-bit signed samples, a 1920-byte transfer buffer. -/
def params_stereo_48k : snd_pcm_hw_params :=
  { buffer_bytes := 1920, channels := 2, rate := 48000,
    format := snd_pcm_format.SNDRV_PCM_FORMAT_S16_LE }

/-- A Prepare that gets the lock, with every session call succeeding, a buffer of
`bytes` bytes in periods of 480 and the ring counters reading `c`. -/
def prepare_ok (bytes c : Nat) : prepare_env :=
  { lock_interrupted := false, set_params_ret := 0, buffer_bytes := bytes,
    period_bytes := 480, rings := rings_at c, prepare_phonecall_ret := 0 }

/-- The world after the playback substream of device 0 was opened on the empty
registry (record at address 0, service 0, counters at 0). -/
def world_opened : World :=
  match snd_aoc_pcm_open World.empty playback0 (open_ok 0 0) with
  | some (w, _) => w
  | none => World.empty

/-- The world after the opened playback stream was prepared at counter 0 with a
1920-byte buffer. -/
def world_prepared : World :=
  match snd_aoc_pcm_prepare world_opened playback0 (prepare_ok 1920 0) with
  | some (w, _) => w
  | none => world_opened

/-- The world after the prepared playback stream was ticked with the samples 100 and
then 50. -/
def world_ticked : World :=
  match run world_prepared [Op.Tick 0 (rings_at 100), Op.Tick 0 (rings_at 50)] with
  | some w => w
  | none => world_prepared

/-- The playback stream after Prepare at counter 0 (1920-byte buffer) and ticks with the
samples 100 and 50: one wrap detected, `pos = (50 + 2 ^ 32) mod 1920 = 306`. -/
def stream_ticked : aoc_alsa_stream :=
  { stream_prepared with timer_pending := true, prev_consumed := 50, n_overflow := 1,
                         pos := 306 }

/-- The prepared playback stream once the start trigger (outside this file) has set
`running` and armed the timer. -/
def stream_running : aoc_alsa_stream :=
  { stream_prepared with running := true, timer_pending := true }

/-- The world in which the prepared playback stream of device 0 is running. -/
def world_running : World :=
  { world_prepared with heap := Function.update world_prepared.heap 0 (some stream_running) }

/-- A Close that gets the lock while both teardown calls report an error. -/
def close_errors : close_env :=
  { lock_interrupted := false, teardown_ret := -5, audio_stop_ret := -5 }

/-- An Open whose `aoc_audio_open` call fails with -5 after the service (handle 3) and the
record were allocated. -/
def open_audio_fails : open_env :=
  { lock_interrupted := false, alloc_ret := 0, alloc_dev := 3, kzalloc_fails := false,
    rings := rings_at 0, audio_open_ret := -5 }

/-- An Open of a capture stream in which every external call succeeds, with the down-link
ring having delivered 111 bytes and the up-link ring having received 222. -/
def open_ok_split : open_env :=
  { lock_interrupted := false, alloc_ret := 0, alloc_dev := 5, kzalloc_fails := false,
    rings := { bytes_read_down := 111, bytes_written_up := 222 }, audio_open_ret := 0 }

/-- Mono 16 kHz float samples with a 4096-byte transfer buffer. -/
def params_mono_float : snd_pcm_hw_params :=
  { buffer_bytes := 4096, channels := 1, rate := 16000,
    format := snd_pcm_format.SNDRV_PCM_FORMAT_FLOAT_LE }

/-- The world after the opened playback stream of device 0 was configured with two
channels, 48 kHz, 16 bit. -/
def world_configured : World :=
  match snd_aoc_pcm_hw_params world_opened playback0 params_stereo_48k 0 with
  | some (w, _) => w
  | none => world_opened

/-- The playback stream of device 0 after Open and Configure (two channels, 48 kHz,
16 bit). -/
def stream_configured : aoc_alsa_stream :=
  { stream_opened with channels := 2, params_rate := 48000, pcm_format_width := 16 }

/-- A Prepare that gets the lock and in which `aoc_audio_set_params` fails with -5 while
`prepare_phonecall` succeeds. -/
def prepare_set_params_fails : prepare_env :=
  { lock_interrupted := false, set_params_ret := -5, buffer_bytes := 1920,
    period_bytes := 480, rings := rings_at 0, prepare_phonecall_ret := 0 }

/-- A Prepare that gets the lock and in which both session calls fail, with -5 and -7. -/
def prepare_both_fail : prepare_env :=
  { lock_interrupted := false, set_params_ret := -5, buffer_bytes := 1920,
    period_bytes := 480, rings := rings_at 0, prepare_phonecall_ret := -7 }

/-- The world after the playback substream and then the capture substream of device 0
were opened, every call succeeding both times (records at addresses 0 and 1). -/
def world_two_opens : World :=
  match snd_aoc_pcm_open world_opened capture0 (open_ok 1 0) with
  | some (w, _) => w
  | none => world_opened

/-- An Open in which the service (handle 3) is allocated and `kzalloc` then returns
`NULL`. -/
def open_kzalloc_fails : open_env :=
  { lock_interrupted := false, alloc_ret := 0, alloc_dev := 3, kzalloc_fails := true,
    rings := rings_at 0, audio_open_ret := 0 }

/-- The playback substream of PCM device 32, one past the width of the opened mask. -/
def playback32 : snd_pcm_substream := ⟨32, snd_pcm_stream.SNDRV_PCM_STREAM_PLAYBACK⟩


/-! ## Arithmetic facts -/

theorem wrap64_cast (z : Int) : ((wrap64 z : Nat) : Int) = z % 18446744073709551616 := by
  unfold wrap64 ULONG_SPACE
  rw [Int.toNat_of_nonneg]
  · norm_num
  · exact Int.emod_nonneg _ (by norm_num)

theorem wrap64_of_range (z : Int) (h0 : 0 ≤ z) (h1 : z < 18446744073709551616) :
    wrap64 z = z.toNat := by
  unfold wrap64 ULONG_SPACE
  congr 1
  exact Int.emod_eq_of_lt h0 (by exact_mod_cast h1)

theorem ring_consumed_lt (st : snd_pcm_stream) (hw : aoc_rings) :
    ring_consumed st hw < 18446744073709551616 := by
  unfold ring_consumed ULONG_SPACE
  exact Nat.mod_lt _ (by norm_num)

/-! ## The timer handler -/

theorem handler_noop (a : aoc_alsa_stream) (hw : aoc_rings)
    (h : consumed_of a hw = a.prev_consumed) :
    aoc_pcm_timer_irq_handler a hw
      = some (aoc_timer_start a, [Event.aoc_timer_start a.substream]) := by
  unfold consumed_of at h
  simp [aoc_pcm_timer_irq_handler, aoc_timer_start, h]



theorem handler_moved (a : aoc_alsa_stream) (hw : aoc_rings)
    (hB : 0 < a.buffer_size) (hne : consumed_of a hw ≠ a.prev_consumed) :
    ∃ a1 : aoc_alsa_stream,
      aoc_pcm_timer_irq_handler a hw
        = some (a1, [Event.aoc_timer_start a.substream,
                     Event.snd_pcm_period_elapsed a.substream]) ∧
      a1.prev_consumed = consumed_of a hw ∧
      a1.n_overflow = (if consumed_of a hw < a.prev_consumed
                         then (a.n_overflow + 1) % 4294967296 else a.n_overflow) ∧
      a1.pos = (if a1.n_overflow ≠ 0
                  then wrap64 ((consumed_of a hw : Int) + 4294967296 * (a1.n_overflow : Int)
                                - (a.hw_ptr_base : Int)) % a.buffer_size
                  else wrap64 ((consumed_of a hw : Int) - (a.hw_ptr_base : Int))
                                % a.buffer_size) ∧
      a1.hw_ptr_base = a.hw_ptr_base ∧ a1.buffer_size = a.buffer_size ∧
      a1.period_size = a.period_size ∧ a1.substream = a.substream := by
  unfold consumed_of at hne ⊢
  have hB0 : a.buffer_size ≠ 0 := Nat.pos_iff_ne_zero.mp hB
  by_cases hlt : ring_consumed a.substream.stream hw < a.prev_consumed
  · by_cases hn : (a.n_overflow + 1) % 4294967296 = 0
    · simp [aoc_pcm_timer_irq_handler, aoc_timer_start, hne, hlt, hB0, hn, UINT_SPACE]
    · simp [aoc_pcm_timer_irq_handler, aoc_timer_start, hne, hlt, hB0, hn, UINT_SPACE]
  · by_cases hn : a.n_overflow = 0
    · simp [aoc_pcm_timer_irq_handler, aoc_timer_start, hne, hlt, hB0, hn, UINT_SPACE]
    · simp [aoc_pcm_timer_irq_handler, aoc_timer_start, hne, hlt, hB0, hn, UINT_SPACE]

theorem handler_div_by_zero (a : aoc_alsa_stream) (hw : aoc_rings)
    (hB : a.buffer_size = 0) (hne : consumed_of a hw ≠ a.prev_consumed) :
    aoc_pcm_timer_irq_handler a hw = none := by
  unfold consumed_of at hne
  by_cases hlt : ring_consumed a.substream.stream hw < a.prev_consumed
  · simp [aoc_pcm_timer_irq_handler, aoc_timer_start, hne, hlt, hB]
  · simp [aoc_pcm_timer_irq_handler, aoc_timer_start, hne, hlt, hB]



/-- C2 (as stated) fails: a playback stream prepared at counter value `2 ^ 32 + 1000` with a
1920-byte buffer and ticked with the sample 40 ends with `prev_consumed = 40`,
`n_overflow = 1` and `pos = 1216`, whereas `(40 + 1 * 2 ^ 32 - (2 ^ 32 + 1000)) mod 1920`
is `960`: the handler's unsigned 64-bit subtraction wraps. -/
theorem tick_position_unreduced_fails :
    0 < stream_prepared_high.buffer_size ∧
    consumed_of stream_prepared_high rings_40 ≠ stream_prepared_high.prev_consumed ∧
    (tick stream_prepared_high rings_40).map (fun a1 => (a1.prev_consumed, a1.n_overflow, a1.pos))
      = some (40, 1, 1216) ∧
    ((consumed_of stream_prepared_high rings_40 : Int) + 1 * 2 ^ 32
        - (stream_prepared_high.hw_ptr_base : Int)) % (stream_prepared_high.buffer_size : Int)
      = 960 := by
  decide



/-- C2 (amended): for every stream record with a non-zero buffer size and every counter
sample different from `prev_consumed`, one run of the timer handler returns, stores the
sample in `prev_consumed`, and sets `pos` to the claimed difference reduced modulo `2 ^ 64`
and then modulo `buffer_size` (without the wrap term when the updated `n_overflow` is zero,
with `n_overflow * 2 ^ 32` added when it is positive); whenever the difference lies in
`[0, 2 ^ 64)` this is the difference modulo `buffer_size` itself. -/
theorem tick_position_mod_ulong (a : aoc_alsa_stream) (hw : aoc_rings)
    (hB : 0 < a.buffer_size) (hne : consumed_of a hw ≠ a.prev_consumed) :
    ∃ (a1 : aoc_alsa_stream) (ev : List Event),
      aoc_pcm_timer_irq_handler a hw = some (a1, ev) ∧
      a1.prev_consumed = consumed_of a hw ∧
      (a1.n_overflow = 0 →
        (a1.pos : Int)
          = (((consumed_of a hw : Int) - (a.hw_ptr_base : Int)) % 2 ^ 64)
              % (a.buffer_size : Int)) ∧
      (0 < a1.n_overflow →
        (a1.pos : Int)
          = (((consumed_of a hw : Int) + (a1.n_overflow : Int) * 2 ^ 32
                - (a.hw_ptr_base : Int)) % 2 ^ 64) % (a.buffer_size : Int)) ∧
      (a1.n_overflow = 0 → a.hw_ptr_base ≤ consumed_of a hw →
        a1.pos = (consumed_of a hw - a.hw_ptr_base) % a.buffer_size) ∧
      (0 < a1.n_overflow → a.hw_ptr_base ≤ consumed_of a hw + a1.n_overflow * 2 ^ 32 →
        consumed_of a hw + a1.n_overflow * 2 ^ 32 - a.hw_ptr_base < 2 ^ 64 →
        a1.pos = (consumed_of a hw + a1.n_overflow * 2 ^ 32 - a.hw_ptr_base)
                   % a.buffer_size) := by
  obtain ⟨a1, hrun, hprev, _, hpos, _, _, _, _⟩ := handler_moved a hw hB hne
  have hc := ring_consumed_lt a.substream.stream hw
  refine ⟨a1, _, hrun, hprev, ?_, ?_, ?_, ?_⟩
  · intro h0
    rw [hpos, if_neg (by simp [h0]), Int.natCast_mod, wrap64_cast]
    norm_num
  · intro h0
    rw [hpos, if_pos (by omega), Int.natCast_mod, wrap64_cast]
    norm_num [mul_comm]
  · intro h0 hle
    rw [hpos, if_neg (by simp [h0]), wrap64_of_range]
    · congr 1
      omega
    · omega
    · unfold consumed_of
      omega
  · intro h0 hle hlt
    rw [hpos, if_pos (by omega), wrap64_of_range]
    · congr 1
      omega
    · omega
    · omega

/-- C2 (amended), at a concrete input: a stream prepared at counter value
`2 ^ 32 + 1000` and ticked with the sample 40. -/
theorem tick_position_mod_ulong_witness :
    ∃ (a1 : aoc_alsa_stream) (ev : List Event),
      aoc_pcm_timer_irq_handler stream_prepared_high rings_40 = some (a1, ev) ∧
      a1.prev_consumed = consumed_of stream_prepared_high rings_40 ∧
      (a1.n_overflow = 0 →
        (a1.pos : Int)
          = (((consumed_of stream_prepared_high rings_40 : Int)
                - (stream_prepared_high.hw_ptr_base : Int)) % 2 ^ 64)
              % (stream_prepared_high.buffer_size : Int)) ∧
      (0 < a1.n_overflow →
        (a1.pos : Int)
          = (((consumed_of stream_prepared_high rings_40 : Int) + (a1.n_overflow : Int) * 2 ^ 32
                - (stream_prepared_high.hw_ptr_base : Int)) % 2 ^ 64)
              % (stream_prepared_high.buffer_size : Int)) ∧
      (a1.n_overflow = 0 →
        stream_prepared_high.hw_ptr_base ≤ consumed_of stream_prepared_high rings_40 →
        a1.pos = (consumed_of stream_prepared_high rings_40
                    - stream_prepared_high.hw_ptr_base) % stream_prepared_high.buffer_size) ∧
      (0 < a1.n_overflow →
        stream_prepared_high.hw_ptr_base
          ≤ consumed_of stream_prepared_high rings_40 + a1.n_overflow * 2 ^ 32 →
        consumed_of stream_prepared_high rings_40 + a1.n_overflow * 2 ^ 32
          - stream_prepared_high.hw_ptr_base < 2 ^ 64 →
        a1.pos = (consumed_of stream_prepared_high rings_40 + a1.n_overflow * 2 ^ 32
                    - stream_prepared_high.hw_ptr_base) % stream_prepared_high.buffer_size) :=
  tick_position_mod_ulong stream_prepared_high rings_40 (by decide) (by decide)



/-- C3 (as stated) fails: with `n_overflow` at its largest 32-bit value a regressing
sample (40 after 100) leaves `n_overflow = 0`, not one more; and on a stream whose
`buffer_size` is still zero a moving sample (40 after 0) makes the handler divide by zero,
so the tick yields no record at all. -/
theorem tick_overflow_increment_fails :
    (consumed_of stream_overflow_max rings_40 < stream_overflow_max.prev_consumed ∧
      stream_overflow_max.n_overflow = 4294967295 ∧
      (tick stream_overflow_max rings_40).map (fun a1 => a1.n_overflow) = some 0) ∧
    (stream_opened.buffer_size = 0 ∧
      ¬ consumed_of stream_opened rings_40 < stream_opened.prev_consumed ∧
      tick stream_opened rings_40 = none) := by
  decide

/-- C3 (amended): for every stream record and counter sample on which the handler divides
by a non-zero size or does not move (`buffer_size > 0` or `consumed = prev_consumed`), one
timer tick returns; it sets `n_overflow` to `(n_overflow + 1) mod 2 ^ 32` if
`consumed < prev_consumed` and leaves it unchanged otherwise, so below the largest 32-bit
value `n_overflow` grows by exactly one if and only if `consumed < prev_consumed`; and
`prev_consumed` decreases across the tick exactly in that case, being non-decreasing across
every other tick. -/
theorem tick_overflow_count (a : aoc_alsa_stream) (hw : aoc_rings)
    (h : 0 < a.buffer_size ∨ consumed_of a hw = a.prev_consumed) :
    ∃ (a1 : aoc_alsa_stream) (ev : List Event),
      aoc_pcm_timer_irq_handler a hw = some (a1, ev) ∧
      a1.n_overflow = (if consumed_of a hw < a.prev_consumed
                         then (a.n_overflow + 1) % 2 ^ 32 else a.n_overflow) ∧
      (a.n_overflow + 1 < 2 ^ 32 →
        (a1.n_overflow = a.n_overflow + 1 ↔ consumed_of a hw < a.prev_consumed)) ∧
      (¬ consumed_of a hw < a.prev_consumed → a1.n_overflow = a.n_overflow) ∧
      a1.prev_consumed = consumed_of a hw ∧
      (a1.prev_consumed < a.prev_consumed ↔ consumed_of a hw < a.prev_consumed) ∧
      (¬ consumed_of a hw < a.prev_consumed → a.prev_consumed ≤ a1.prev_consumed) := by
  by_cases heq : consumed_of a hw = a.prev_consumed
  · refine ⟨_, _, handler_noop a hw heq, ?_⟩
    simp [aoc_timer_start, heq]
  · have hB : 0 < a.buffer_size := h.resolve_right heq
    obtain ⟨a1, hrun, hprev, hn, _⟩ := handler_moved a hw hB heq
    refine ⟨a1, _, hrun, ?_, ?_, ?_, hprev, ?_, ?_⟩
    · rw [hn]; norm_num
    · intro hsmall
      rw [hn]
      by_cases hlt : consumed_of a hw < a.prev_consumed
      · simp only [hlt, if_true, iff_true]
        exact Nat.mod_eq_of_lt (by norm_num at hsmall ⊢; exact hsmall)
      · simp [hlt]
    · intro hlt
      rw [hn, if_neg hlt]
    · rw [hprev]
    · intro hlt
      rw [hprev]
      exact Nat.le_of_not_lt hlt

/-- C3 (amended), at a concrete input: a prepared stream whose last sample was
`2 ^ 32 + 1000`, ticked with the sample 40. -/
theorem tick_overflow_count_witness :
    (0 < stream_prepared_high.buffer_size ∨
      consumed_of stream_prepared_high rings_40 = stream_prepared_high.prev_consumed) ∧
    ∃ (a1 : aoc_alsa_stream) (ev : List Event),
      aoc_pcm_timer_irq_handler stream_prepared_high rings_40 = some (a1, ev) ∧
      a1.n_overflow = 1 ∧ a1.prev_consumed = 40 := by
  have hyp : 0 < stream_prepared_high.buffer_size ∨
      consumed_of stream_prepared_high rings_40 = stream_prepared_high.prev_consumed :=
    Or.inl (by decide)
  obtain ⟨a1, ev, hrun, hn, _, _, hprev, _, _⟩ :=
    tick_overflow_count stream_prepared_high rings_40 hyp
  exact ⟨hyp, a1, ev, hrun, by rw [hn]; decide, by rw [hprev]; decide⟩



theorem tick_spec (a : aoc_alsa_stream) (hw : aoc_rings) (hB : 0 < a.buffer_size) :
    ∃ r : aoc_alsa_stream,
      tick a hw = some r ∧
      r.prev_consumed = consumed_of a hw ∧
      r.n_overflow = (if consumed_of a hw < a.prev_consumed
                        then (a.n_overflow + 1) % 4294967296 else a.n_overflow) ∧
      r.hw_ptr_base = a.hw_ptr_base ∧ r.buffer_size = a.buffer_size ∧
      r.period_size = a.period_size ∧ r.substream = a.substream ∧
      (consumed_of a hw = a.prev_consumed → r.pos = a.pos) ∧
      (consumed_of a hw ≠ a.prev_consumed →
        r.pos = (if r.n_overflow ≠ 0
                   then wrap64 ((consumed_of a hw : Int) + 4294967296 * (r.n_overflow : Int)
                                 - (a.hw_ptr_base : Int)) % a.buffer_size
                   else wrap64 ((consumed_of a hw : Int) - (a.hw_ptr_base : Int))
                                 % a.buffer_size)) := by
  by_cases heq : consumed_of a hw = a.prev_consumed
  · refine ⟨aoc_timer_start a, ?_, ?_⟩
    · simp [tick, handler_noop a hw heq]
    · simp [aoc_timer_start, heq]
  · obtain ⟨a1, hrun, hprev, hn, hpos, hbase, hbuf, hper, hsub⟩ := handler_moved a hw hB heq
    refine ⟨a1, ?_, hprev, hn, hbase, hbuf, hper, hsub, ?_, ?_⟩
    · simp [tick, hrun]
    · intro h; exact absurd h heq
    · intro _; exact hpos

theorem consumed_of_congr (a b : aoc_alsa_stream) (hw : aoc_rings)
    (h : b.substream = a.substream) : consumed_of b hw = consumed_of a hw := by
  unfold consumed_of
  rw [h]

/-- C4 (as stated) fails: on a stream whose `buffer_size` is still zero (as
`snd_aoc_pcm_open` leaves it) a sample that differs from `prev_consumed` makes the handler
divide by zero before it reaches `snd_pcm_period_elapsed`: nothing is signalled. -/
theorem tick_signal_zero_buffer_fails :
    consumed_of stream_opened rings_40 ≠ stream_opened.prev_consumed ∧
    stream_opened.buffer_size = 0 ∧
    aoc_pcm_timer_irq_handler stream_opened rings_40 = none := by
  decide

/-- C4 (amended): for every stream record and counter sample on which the handler divides
by a non-zero size or does not move (`buffer_size > 0` or `consumed = prev_consumed`), a
timer tick returns and signals period-elapsed if and only if `consumed ≠ prev_consumed`;
when `consumed = prev_consumed` it signals nothing and leaves `prev_consumed`,
`n_overflow`, `pos`, `hw_ptr_base`, `buffer_size` and `period_size` unchanged. -/
theorem tick_signal (a : aoc_alsa_stream) (hw : aoc_rings)
    (h : 0 < a.buffer_size ∨ consumed_of a hw = a.prev_consumed) :
    ∃ (a1 : aoc_alsa_stream) (ev : List Event),
      aoc_pcm_timer_irq_handler a hw = some (a1, ev) ∧
      (Event.snd_pcm_period_elapsed a.substream ∈ ev ↔ consumed_of a hw ≠ a.prev_consumed) ∧
      (consumed_of a hw = a.prev_consumed →
        (∀ s, Event.snd_pcm_period_elapsed s ∉ ev) ∧
        a1.prev_consumed = a.prev_consumed ∧ a1.n_overflow = a.n_overflow ∧
        a1.pos = a.pos ∧ a1.hw_ptr_base = a.hw_ptr_base ∧
        a1.buffer_size = a.buffer_size ∧ a1.period_size = a.period_size) := by
  by_cases heq : consumed_of a hw = a.prev_consumed
  · refine ⟨_, _, handler_noop a hw heq, ?_, ?_⟩
    · simp [heq]
    · intro _
      simp [aoc_timer_start]
  · have hB : 0 < a.buffer_size := h.resolve_right heq
    obtain ⟨a1, hrun, _⟩ := handler_moved a hw hB heq
    refine ⟨a1, _, hrun, ?_, ?_⟩
    · simp [heq]
    · intro h0; exact absurd h0 heq

/-- C4 (amended), at two concrete inputs: a prepared stream ticked with a moving sample
(40 after 0) signals; ticked with the unchanged sample 0 it does not. -/
theorem tick_signal_witness :
    (0 < stream_prepared.buffer_size ∨
      consumed_of stream_prepared rings_40 = stream_prepared.prev_consumed) ∧
    (∃ (a1 : aoc_alsa_stream) (ev : List Event),
      aoc_pcm_timer_irq_handler stream_prepared rings_40 = some (a1, ev) ∧
      Event.snd_pcm_period_elapsed stream_prepared.substream ∈ ev) ∧
    (∃ (a1 : aoc_alsa_stream) (ev : List Event),
      aoc_pcm_timer_irq_handler stream_prepared (rings_at 0) = some (a1, ev) ∧
      Event.snd_pcm_period_elapsed stream_prepared.substream ∉ ev ∧
      a1.pos = stream_prepared.pos) := by
  have hyp : 0 < stream_prepared.buffer_size ∨
      consumed_of stream_prepared rings_40 = stream_prepared.prev_consumed :=
    Or.inl (by decide)
  have hyp0 : 0 < stream_prepared.buffer_size ∨
      consumed_of stream_prepared (rings_at 0) = stream_prepared.prev_consumed :=
    Or.inr (by decide)
  obtain ⟨a1, ev, hrun, hsig, _⟩ := tick_signal stream_prepared rings_40 hyp
  obtain ⟨b1, ev0, hrun0, hsig0, hsame⟩ := tick_signal stream_prepared (rings_at 0) hyp0
  have hq : consumed_of stream_prepared (rings_at 0) = stream_prepared.prev_consumed := by
    decide
  exact ⟨hyp, ⟨a1, ev, hrun, hsig.mpr (by decide)⟩,
    ⟨b1, ev0, hrun0, fun hmem => (hsig0.mp hmem) hq, (hsame hq).2.2.2.1⟩⟩




/-- C5: on a stream freshly prepared with `hw_ptr_base = prev_consumed = 0` and
`n_overflow = 0` and a non-zero buffer size, three ticks with samples `x ≤ y < 2 ^ 32` and
then `z < y` all return, and after the third `n_overflow = 1` and
`pos = (z + 2 ^ 32) mod buffer_size`. -/
theorem overflow_correction (a : aoc_alsa_stream) (h1 h2 h3 : aoc_rings)
    (hB : 0 < a.buffer_size) (hbase : a.hw_ptr_base = 0) (hprev : a.prev_consumed = 0)
    (hn : a.n_overflow = 0)
    (hxy : consumed_of a h1 ≤ consumed_of a h2) (hy : consumed_of a h2 < 2 ^ 32)
    (hz : consumed_of a h3 < consumed_of a h2) :
    ∃ r1 r2 r3 : aoc_alsa_stream,
      ticks a [h1, h2, h3] = some [r1, r2, r3] ∧
      r3.n_overflow = 1 ∧
      r3.pos = (consumed_of a h3 + 2 ^ 32) % a.buffer_size := by
  obtain ⟨r1, t1, p1, n1, b1, s1, _, u1, _, _⟩ := tick_spec a h1 hB
  obtain ⟨r2, t2, p2, n2, b2, s2, _, u2, _, _⟩ := tick_spec r1 h2 (by rw [s1]; exact hB)
  obtain ⟨r3, t3, p3, n3, b3, s3, _, u3, _, q3⟩ := tick_spec r2 h3 (by rw [s2, s1]; exact hB)
  have c2 : consumed_of r1 h2 = consumed_of a h2 := consumed_of_congr a r1 h2 u1
  have c3 : consumed_of r2 h3 = consumed_of a h3 := consumed_of_congr a r2 h3 (u2.trans u1)
  rw [c2] at p2 n2
  rw [c3] at p3 n3 q3
  rw [hprev, if_neg (Nat.not_lt_zero _), hn] at n1
  rw [p1, if_neg (Nat.not_lt.mpr hxy), n1] at n2
  rw [p2, if_pos hz, n2] at n3
  have hne : consumed_of a h3 ≠ r2.prev_consumed := by rw [p2]; exact Nat.ne_of_lt hz
  have hpos := q3 hne
  have n3a : r3.n_overflow = 1 := by rw [n3]
  have hy2 : consumed_of a h2 < 4294967296 := by
    have e : (2 : Nat) ^ 32 = 4294967296 := by norm_num
    rw [e] at hy
    exact hy
  have e32 : (2 : Nat) ^ 32 = 4294967296 := by norm_num
  rw [n3a, if_pos (by decide), b2, b1, hbase, s2, s1] at hpos
  refine ⟨r1, r2, r3, ?_, n3a, ?_⟩
  · simp [ticks, t1, t2, t3]
  · rw [hpos, wrap64_of_range, e32]
    · congr 1
    · omega
    · omega

/-- C5, at the samples `[100, 4294967290, 50]` on a 1920-byte buffer: `n_overflow = 1` and
`pos = (50 + 2 ^ 32) mod 1920 = 306`. -/
theorem overflow_correction_witness :
    ∃ r1 r2 r3 : aoc_alsa_stream,
      ticks stream_prepared [rings_at 100, rings_at 4294967290, rings_at 50]
        = some [r1, r2, r3] ∧
      r3.n_overflow = 1 ∧
      r3.pos = (consumed_of stream_prepared (rings_at 50) + 2 ^ 32)
                 % stream_prepared.buffer_size ∧
      r3.pos = 306 := by
  obtain ⟨r1, r2, r3, hrun, hn, hpos⟩ :=
    overflow_correction stream_prepared (rings_at 100) (rings_at 4294967290) (rings_at 50)
      (by decide) (by decide) (by decide) (by decide) (by decide) (by decide) (by decide)
  exact ⟨r1, r2, r3, hrun, hn, hpos, by rw [hpos]; decide⟩


/-! ## The callbacks on a world that holds the stream's record -/

theorem open_success (w : World) (s : snd_pcm_substream) (env : open_env)
    (h1 : env.lock_interrupted = false) (h2 : 0 ≤ env.alloc_ret)
    (h3 : env.kzalloc_fails = false) (h4 : env.audio_open_ret = 0) :
    ∃ w1 : World,
      snd_aoc_pcm_open w s env = some (w1, 0) ∧
      w1.private_data s = some w.brk ∧
      w1.chip.alsa_stream s.device = some w.brk ∧
      w1.chip.opened = set_opened w.chip.opened s.device ∧
      ∃ a : aoc_alsa_stream, w1.heap w.brk = some a ∧
        a.substream = s ∧ a.idx = s.device ∧ a.dev = env.alloc_dev ∧ a.open_ = true ∧
        a.n_overflow = 0 ∧ a.buffer_size = 0 ∧ a.period_size = 0 ∧ a.pos = 0 ∧
        a.hw_ptr_base = ring_consumed s.stream env.rings ∧
        a.prev_consumed = ring_consumed s.stream env.rings ∧
        a.timer_pending = false ∧ a.running = false := by
  have h2n : ¬ env.alloc_ret < 0 := not_lt.mpr h2
  simp [snd_aoc_pcm_open, h1, h2n, h3, h4, kzalloc_stream]

theorem hw_params_success (w : World) (s : snd_pcm_substream) (params : snd_pcm_hw_params)
    (mr : Int) (p : Nat) (a : aoc_alsa_stream)
    (hp : w.private_data s = some p) (ha : w.heap p = some a) (hm : 0 ≤ mr) :
    ∃ w1 : World,
      snd_aoc_pcm_hw_params w s params mr = some (w1, mr) ∧
      w1.private_data s = some p ∧ w1.chip = w.chip ∧
      ∃ a1 : aoc_alsa_stream, w1.heap p = some a1 ∧
        a1.substream = a.substream ∧ a1.idx = a.idx ∧
        a1.channels = params.channels ∧ a1.params_rate = params.rate ∧
        a1.pcm_format_width = snd_pcm_format_width params.format ∧
        a1.pcm_float_fmt
          = decide (params.format = snd_pcm_format.SNDRV_PCM_FORMAT_FLOAT_LE) ∧
        a1.pos = a.pos ∧ a1.prev_consumed = a.prev_consumed ∧
        a1.n_overflow = a.n_overflow ∧ a1.hw_ptr_base = a.hw_ptr_base ∧
        a1.buffer_size = a.buffer_size ∧ a1.period_size = a.period_size := by
  have hmn : ¬ mr < 0 := not_lt.mpr hm
  simp [snd_aoc_pcm_hw_params, hmn, hp, ha]

theorem prepare_locked (w : World) (s : snd_pcm_substream) (env : prepare_env)
    (p : Nat) (a : aoc_alsa_stream)
    (hp : w.private_data s = some p) (ha : w.heap p = some a)
    (hl : env.lock_interrupted = false) :
    ∃ w1 : World,
      snd_aoc_pcm_prepare w s env = some (w1, env.prepare_phonecall_ret) ∧
      w1.private_data s = some p ∧ w1.chip = w.chip ∧
      ∃ a1 : aoc_alsa_stream, w1.heap p = some a1 ∧
        a1.substream = a.substream ∧ a1.idx = a.idx ∧
        a1.pos = 0 ∧ a1.n_overflow = 0 ∧
        a1.hw_ptr_base = ring_consumed s.stream env.rings ∧
        a1.prev_consumed = ring_consumed s.stream env.rings ∧
        a1.buffer_size = env.buffer_bytes ∧ a1.period_size = env.period_bytes ∧
        a1.timer_pending = false := by
  simp [snd_aoc_pcm_prepare, hp, ha, hl, aoc_timer_stop_sync]

theorem timer_tick_spec (w : World) (p : Nat) (a : aoc_alsa_stream) (hw : aoc_rings)
    (ha : w.heap p = some a) (r : aoc_alsa_stream) (hr : tick a hw = some r) :
    ∃ w1 : World, timer_tick w p hw = some w1 ∧ w1.heap p = some r ∧
      w1.private_data = w.private_data ∧ w1.chip = w.chip := by
  unfold tick at hr
  cases hh : aoc_pcm_timer_irq_handler a hw with
  | none => rw [hh] at hr; simp at hr
  | some q =>
    obtain ⟨a1, ev⟩ := q
    rw [hh] at hr
    simp at hr
    subst hr
    simp [timer_tick, ha, hh]

theorem close_locked (w : World) (s : snd_pcm_substream) (env : close_env)
    (p : Nat) (a : aoc_alsa_stream)
    (hp : w.private_data s = some p) (ha : w.heap p = some a)
    (hl : env.lock_interrupted = false) :
    ∃ (w1 : World) (a1 : aoc_alsa_stream),
      snd_aoc_pcm_close w s env = some (w1, 0) ∧
      w1.chip.alsa_stream = Function.update w.chip.alsa_stream a.idx none ∧
      w1.chip.opened = clear_opened w.chip.opened a.idx ∧
      w1.heap = Function.update w.heap p (some a1) ∧
      w1.private_data = w.private_data ∧
      w1.services = w.services.erase a.dev ∧
      w1.trace = w.trace ++
        [Event.aoc_timer_stop_sync a.substream, Event.mutex_lock_interruptible true,
         Event.teardown_phonecall a.substream env.teardown_ret,
         Event.free_aoc_audio_service a.dev] ++
        (if a.running then [Event.aoc_audio_stop a.substream env.audio_stop_ret] else []) ++
        (if a.open_ then [Event.aoc_audio_close a.substream] else []) ++
        [Event.mutex_unlock] ∧
      a1 = { a with running := false, open_ := false, buffer_size := 0, period_size := 0,
                    timer_pending := false } := by
  cases hr : a.running <;> cases ho : a.open_ <;>
    simp [snd_aoc_pcm_close, hp, ha, hl, aoc_timer_stop_sync, hr, ho]

theorem close_interrupted (w : World) (s : snd_pcm_substream) (env : close_env)
    (p : Nat) (a : aoc_alsa_stream)
    (hp : w.private_data s = some p) (ha : w.heap p = some a)
    (hl : env.lock_interrupted = true) :
    ∃ w1 : World,
      snd_aoc_pcm_close w s env = some (w1, -EINTR) ∧
      w1.chip = w.chip ∧
      w1.heap = Function.update w.heap p (some { a with timer_pending := false }) ∧
      w1.private_data = w.private_data ∧ w1.services = w.services ∧
      w1.trace = w.trace ++
        [Event.aoc_timer_stop_sync a.substream, Event.mutex_lock_interruptible false] := by
  simp [snd_aoc_pcm_close, hp, ha, hl, aoc_timer_stop_sync]

theorem prepare_locked_eq (w : World) (s : snd_pcm_substream) (env : prepare_env)
    (p : Nat) (a : aoc_alsa_stream)
    (hp : w.private_data s = some p) (ha : w.heap p = some a)
    (hl : env.lock_interrupted = false) :
    snd_aoc_pcm_prepare w s env
      = some ({ w with
                heap := Function.update w.heap p
                  (some { a with
                    timer_pending := false
                    buffer_size := env.buffer_bytes
                    period_size := env.period_bytes
                    pos := 0
                    hw_ptr_base := ring_consumed s.stream env.rings
                    prev_consumed := ring_consumed s.stream env.rings
                    n_overflow := 0 })
                trace := w.trace ++
                  [Event.aoc_timer_stop_sync a.substream,
                   Event.mutex_lock_interruptible true,
                   Event.aoc_audio_set_params a.substream a.channels a.params_rate
                     a.pcm_format_width a.pcm_float_fmt env.set_params_ret,
                   Event.aoc_audio_setup a.substream,
                   Event.prepare_phonecall a.substream env.prepare_phonecall_ret,
                   Event.mutex_unlock] },
              env.prepare_phonecall_ret) := by
  simp [snd_aoc_pcm_prepare, hp, ha, hl, aoc_timer_stop_sync]

theorem prepare_interrupted_eq (w : World) (s : snd_pcm_substream) (env : prepare_env)
    (p : Nat) (a : aoc_alsa_stream)
    (hp : w.private_data s = some p) (ha : w.heap p = some a)
    (hl : env.lock_interrupted = true) :
    snd_aoc_pcm_prepare w s env
      = some ({ w with
                heap := Function.update w.heap p (some { a with timer_pending := false })
                trace := w.trace ++
                  [Event.aoc_timer_stop_sync a.substream,
                   Event.mutex_lock_interruptible false] },
              -EINTR) := by
  simp [snd_aoc_pcm_prepare, hp, ha, hl, aoc_timer_stop_sync]

theorem open_cases (w : World) (s : snd_pcm_substream) (env : open_env) :
    (snd_aoc_pcm_open w s env = none ∧
      env.lock_interrupted = false ∧ 0 ≤ env.alloc_ret ∧ env.kzalloc_fails = false ∧
      env.audio_open_ret ≠ 0) ∨
    (∃ (w1 : World) (ret : Int),
      snd_aoc_pcm_open w s env = some (w1, ret) ∧ ret ≠ 0 ∧
      (env.lock_interrupted = true ∨ env.alloc_ret < 0 ∨ env.kzalloc_fails = true) ∧
      ret = (if env.lock_interrupted = true then -EINTR
             else if env.alloc_ret < 0 then env.alloc_ret else -ENOMEM) ∧
      w1.chip = w.chip ∧ w1.heap = w.heap ∧ w1.brk = w.brk ∧
      w1.private_data = w.private_data ∧ w1.services = w.services ∧
      (env.lock_interrupted = false → 0 ≤ env.alloc_ret →
        Event.free_aoc_audio_service env.alloc_dev ∈ w1.trace)) ∨
    (∃ (w1 : World) (a : aoc_alsa_stream),
      snd_aoc_pcm_open w s env = some (w1, 0) ∧
      env.lock_interrupted = false ∧ 0 ≤ env.alloc_ret ∧ env.kzalloc_fails = false ∧
      env.audio_open_ret = 0 ∧
      w1.chip.alsa_stream = Function.update w.chip.alsa_stream s.device (some w.brk) ∧
      w1.chip.opened = set_opened w.chip.opened s.device ∧
      w1.heap = Function.update w.heap w.brk (some a) ∧ w1.brk = w.brk + 1 ∧
      a.open_ = true ∧ a.idx = s.device ∧ a.substream = s ∧ a.buffer_size = 0) := by
  by_cases h1 : env.lock_interrupted = true
  · right; left
    have e : snd_aoc_pcm_open w s env
        = some ({ w with trace := w.trace ++ [Event.mutex_lock_interruptible false] },
                -EINTR) := by
      simp [snd_aoc_pcm_open, h1]
    refine ⟨_, _, e, by simp [EINTR], Or.inl h1, by simp [h1], rfl, rfl, rfl, rfl, rfl, ?_⟩
    intro h; rw [h1] at h; exact absurd h (by simp)
  · by_cases h2 : env.alloc_ret < 0
    · right; left
      have e : snd_aoc_pcm_open w s env
          = some ({ w with trace := w.trace ++
                      [Event.mutex_lock_interruptible true,
                       Event.alloc_aoc_audio_service env.alloc_ret,
                       Event.kfree none, Event.mutex_unlock] },
                  env.alloc_ret) := by
        simp [snd_aoc_pcm_open, h1, h2]
      refine ⟨_, _, e, Int.ne_of_lt h2, Or.inr (Or.inl h2), by simp [h1, h2],
        rfl, rfl, rfl, rfl, rfl, ?_⟩
      intro _ h; exact absurd h2 (not_lt.mpr h)
    · by_cases h3 : env.kzalloc_fails = true
      · right; left
        have e : snd_aoc_pcm_open w s env
            = some ({ w with
                      services := (env.alloc_dev :: w.services).erase env.alloc_dev
                      trace := w.trace ++
                        [Event.mutex_lock_interruptible true,
                         Event.alloc_aoc_audio_service env.alloc_ret, Event.kzalloc none,
                         Event.kfree none, Event.free_aoc_audio_service env.alloc_dev,
                         Event.mutex_unlock] },
                    -ENOMEM) := by
          simp [snd_aoc_pcm_open, h1, h2, h3]
        refine ⟨_, _, e, by simp [ENOMEM], Or.inr (Or.inr h3), by simp [h1, h2],
          rfl, rfl, rfl, rfl, by simp, ?_⟩
        intro _ _; simp
      · by_cases h4 : env.audio_open_ret = 0
        · right; right
          simp [snd_aoc_pcm_open, h1, h2, h3, h4, kzalloc_stream]
          exact ⟨not_lt.mp h2, _, rfl, rfl, rfl, rfl, rfl⟩
        · left
          simp [snd_aoc_pcm_open, h1, h2, h3, h4]
          exact not_lt.mp h2

/-! ## Ticks without a wrap -/

theorem no_wrap_ticks (b : Nat) (cs : List aoc_rings) :
    ∀ (w : World) (p : Nat) (a : aoc_alsa_stream),
      w.heap p = some a → 0 < a.buffer_size → a.n_overflow = 0 → a.hw_ptr_base = b →
      b ≤ a.prev_consumed → a.pos = (a.prev_consumed - b) % a.buffer_size →
      List.Chain (fun x y => x ≤ y) a.prev_consumed (cs.map (ring_consumed a.substream.stream)) →
      ∀ (i : Nat) (hi : i < cs.length),
        ∃ (wi : World) (ai : aoc_alsa_stream),
          run w ((cs.take (i + 1)).map (Op.Tick p)) = some wi ∧ wi.heap p = some ai ∧
          ai.n_overflow = 0 ∧
          ai.pos = (ring_consumed a.substream.stream (cs.get ⟨i, hi⟩) - b) % a.buffer_size := by
  induction cs with
  | nil => intro w p a _ _ _ _ _ _ _ i hi; exact absurd hi (Nat.not_lt_zero _)
  | cons c rest ih =>
    intro w p a ha hB hn hbase hle hpos hch i hi
    rw [List.map_cons, List.chain_cons] at hch
    obtain ⟨hc, hrest⟩ := hch
    obtain ⟨r, hr, rprev, rn, rbase, rbuf, _, rsub, rsame, rmove⟩ := tick_spec a c hB
    unfold consumed_of at rprev rn rsame rmove
    rw [if_neg (Nat.not_lt.mpr hc), hn] at rn
    obtain ⟨w1, hw1, hheap1, _, _⟩ := timer_tick_spec w p a c ha r hr
    have rpos : r.pos = (ring_consumed a.substream.stream c - b) % a.buffer_size := by
      by_cases heq : ring_consumed a.substream.stream c = a.prev_consumed
      · rw [rsame heq, hpos, heq]
      · rw [rmove heq, if_neg (by simp [rn]), hbase, wrap64_of_range]
        · congr 1
          omega
        · omega
        · have := ring_consumed_lt a.substream.stream c
          omega
    cases i with
    | zero =>
      refine ⟨w1, r, ?_, hheap1, rn, ?_⟩
      · simp [run, step, hw1]
      · simpa using rpos
    | succ j =>
      have hj : j < rest.length := by simpa using hi
      have hch1 : List.Chain (fun x y => x ≤ y) r.prev_consumed
          (rest.map (ring_consumed r.substream.stream)) := by
        rw [rprev, rsub]; exact hrest
      obtain ⟨wi, ai, hrun, hheap, hni, hposi⟩ :=
        ih w1 p r hheap1 (by rw [rbuf]; exact hB) rn (by rw [rbase]; exact hbase)
          (by rw [rprev]; exact hle.trans hc) (by rw [rprev, rbuf]; exact rpos) hch1 j hj
      refine ⟨wi, ai, ?_, hheap, hni, ?_⟩
      · simp only [List.take_succ_cons, List.map_cons, run, step, hw1]
        exact hrun
      · rw [hposi, rsub, rbuf]
        rfl

/-- C6: for every world and substream, when Open succeeds, Configure succeeds and Prepare
gets the lock, reading counter value `b` and a buffer of `B > 0` bytes, then for every
sequence of ticks whose samples are non-decreasing and all at least `b`, every tick
returns, `n_overflow` is 0 after each of them and after the `i`-th tick
`pos = (c_i - b) mod B`. -/
theorem end_to_end_no_wrap (w0 : World) (s : snd_pcm_substream) (eo : open_env)
    (params : snd_pcm_hw_params) (mr : Int) (ep : prepare_env) (cs : List aoc_rings)
    (ho1 : eo.lock_interrupted = false) (ho2 : 0 ≤ eo.alloc_ret)
    (ho3 : eo.kzalloc_fails = false) (ho4 : eo.audio_open_ret = 0)
    (hm : 0 ≤ mr) (hl : ep.lock_interrupted = false) (hB : 0 < ep.buffer_bytes)
    (hmono : List.Chain (fun x y => x ≤ y) (ring_consumed s.stream ep.rings)
               (cs.map (ring_consumed s.stream))) :
    ∃ (w1 w2 w3 : World) (a3 : aoc_alsa_stream),
      snd_aoc_pcm_open w0 s eo = some (w1, 0) ∧
      snd_aoc_pcm_hw_params w1 s params mr = some (w2, mr) ∧
      snd_aoc_pcm_prepare w2 s ep = some (w3, ep.prepare_phonecall_ret) ∧
      w3.heap w0.brk = some a3 ∧ a3.buffer_size = ep.buffer_bytes ∧
      a3.hw_ptr_base = ring_consumed s.stream ep.rings ∧ a3.pos = 0 ∧ a3.n_overflow = 0 ∧
      ∀ (i : Nat) (hi : i < cs.length),
        ∃ (wi : World) (ai : aoc_alsa_stream),
          run w3 ((cs.take (i + 1)).map (Op.Tick w0.brk)) = some wi ∧
          wi.heap w0.brk = some ai ∧ ai.n_overflow = 0 ∧
          ai.pos = (ring_consumed s.stream (cs.get ⟨i, hi⟩) - ring_consumed s.stream ep.rings)
                     % ep.buffer_bytes := by
  obtain ⟨w1, e1, pd1, _, _, a1, heap1, sub1, _⟩ := open_success w0 s eo ho1 ho2 ho3 ho4
  obtain ⟨w2, e2, pd2, _, a2, heap2, sub2, _⟩ :=
    hw_params_success w1 s params mr w0.brk a1 pd1 heap1 hm
  obtain ⟨w3, e3, _, _, a3, heap3, sub3, _, pos3, n3, base3, prev3, buf3, _⟩ :=
    prepare_locked w2 s ep w0.brk a2 pd2 heap2 hl
  have hsub : a3.substream = s := by rw [sub3, sub2, sub1]
  refine ⟨w1, w2, w3, a3, e1, e2, e3, heap3, buf3, base3, pos3, n3, ?_⟩
  intro i hi
  have key := no_wrap_ticks (ring_consumed s.stream ep.rings) cs w3 w0.brk a3 heap3
    (by rw [buf3]; exact hB) n3 base3 (by rw [prev3]) (by rw [pos3, prev3]; simp)
    (by rw [prev3, hsub]; exact hmono) i hi
  rw [hsub, buf3] at key
  exact key

/-- C6, at the scenario of the specification: Open(Playback) on the empty registry,
Configure(2 channels, 48 kHz, 16 bit), Prepare at counter 0 with a 1920-byte buffer, then
ticks with samples `[0, 480, 960]`: `pos` is 0, 480, 960 and `n_overflow` stays 0. -/
theorem end_to_end_no_wrap_witness :
    ∃ (w1 w2 w3 : World),
      snd_aoc_pcm_open World.empty playback0 (open_ok 7 0) = some (w1, 0) ∧
      snd_aoc_pcm_hw_params w1 playback0 params_stereo_48k 0 = some (w2, 0) ∧
      snd_aoc_pcm_prepare w2 playback0 (prepare_ok 1920 0) = some (w3, 0) ∧
      (∃ (wi : World) (ai : aoc_alsa_stream),
        run w3 [Op.Tick 0 (rings_at 0)] = some wi ∧ wi.heap 0 = some ai ∧
        ai.n_overflow = 0 ∧ ai.pos = 0) ∧
      (∃ (wi : World) (ai : aoc_alsa_stream),
        run w3 [Op.Tick 0 (rings_at 0), Op.Tick 0 (rings_at 480)] = some wi ∧
        wi.heap 0 = some ai ∧ ai.n_overflow = 0 ∧ ai.pos = 480) ∧
      (∃ (wi : World) (ai : aoc_alsa_stream),
        run w3 [Op.Tick 0 (rings_at 0), Op.Tick 0 (rings_at 480), Op.Tick 0 (rings_at 960)]
          = some wi ∧
        wi.heap 0 = some ai ∧ ai.n_overflow = 0 ∧ ai.pos = 960) := by
  obtain ⟨w1, w2, w3, a3, e1, e2, e3, _, _, _, _, _, key⟩ :=
    end_to_end_no_wrap World.empty playback0 (open_ok 7 0) params_stereo_48k 0
      (prepare_ok 1920 0) [rings_at 0, rings_at 480, rings_at 960]
      (by decide) (by decide) (by decide) (by decide) (by decide) (by decide) (by decide)
      (List.Chain.cons (by decide)
        (List.Chain.cons (by decide) (List.Chain.cons (by decide) List.Chain.nil)))
  obtain ⟨x0, y0, r0, h0, n0, p0⟩ := key 0 (by decide)
  obtain ⟨x1, y1, r1, h1, n1, p1⟩ := key 1 (by decide)
  obtain ⟨x2, y2, r2, h2, n2, p2⟩ := key 2 (by decide)
  exact ⟨w1, w2, w3, e1, e2, e3, ⟨x0, y0, r0, h0, n0, p0.trans (by decide)⟩,
    ⟨x1, y1, r1, h1, n1, p1.trans (by decide)⟩, ⟨x2, y2, r2, h2, n2, p2.trans (by decide)⟩⟩

/-! ## Prepare -/

theorem timer_tick_frame (w w1 : World) (q : Nat) (hw : aoc_rings)
    (h : timer_tick w q hw = some w1) :
    w1.private_data = w.private_data ∧ w1.chip = w.chip ∧ w1.services = w.services ∧
    ∀ (p : Nat) (a : aoc_alsa_stream), w.heap p = some a → ∃ a1, w1.heap p = some a1 := by
  unfold timer_tick at h
  cases hq : w.heap q with
  | none => simp [hq] at h
  | some b =>
    cases hh : aoc_pcm_timer_irq_handler b hw with
    | none => simp [hq, hh] at h
    | some r =>
      obtain ⟨b1, ev⟩ := r
      simp [hq, hh] at h
      subst h
      refine ⟨rfl, rfl, rfl, ?_⟩
      intro p a ha
      by_cases hpq : p = q
      · subst hpq
        exact ⟨b1, by simp⟩
      · exact ⟨a, by simp [Function.update, hpq, ha]⟩

theorem run_ticks_frame (ts : List (Nat × aoc_rings)) :
    ∀ (w w2 : World), run w (ts.map (fun t => Op.Tick t.1 t.2)) = some w2 →
      w2.private_data = w.private_data ∧
      ∀ (p : Nat) (a : aoc_alsa_stream), w.heap p = some a → ∃ a2, w2.heap p = some a2 := by
  induction ts with
  | nil =>
    intro w w2 h
    simp [run] at h
    subst h
    exact ⟨rfl, fun p a ha => ⟨a, ha⟩⟩
  | cons t rest ih =>
    intro w w2 h
    simp only [List.map_cons, run, step] at h
    cases ht : timer_tick w t.1 t.2 with
    | none => simp [ht] at h
    | some w1 =>
      simp only [ht] at h
      obtain ⟨hpd, _, _, hheap⟩ := timer_tick_frame w w1 t.1 t.2 ht
      obtain ⟨hpd2, hheap2⟩ := ih w1 w2 h
      refine ⟨hpd2.trans hpd, ?_⟩
      intro p a ha
      obtain ⟨a1, ha1⟩ := hheap p a ha
      exact hheap2 p a1 ha1

/-- C7: for every stream record in any prior state, a Prepare that acquires the chip lock
returns and leaves `pos = 0`, `n_overflow = 0` and `hw_ptr_base = prev_consumed =` the
counter value read during that Prepare; and after any sequence of timer ticks (on any
records) a second such Prepare does so again. -/
theorem prepare_idempotent (w : World) (s : snd_pcm_substream) (env : prepare_env)
    (p : Nat) (a : aoc_alsa_stream)
    (hp : w.private_data s = some p) (ha : w.heap p = some a)
    (hl : env.lock_interrupted = false) :
    ∃ (w1 : World) (a1 : aoc_alsa_stream),
      snd_aoc_pcm_prepare w s env = some (w1, env.prepare_phonecall_ret) ∧
      w1.heap p = some a1 ∧ a1.pos = 0 ∧ a1.n_overflow = 0 ∧
      a1.hw_ptr_base = ring_consumed s.stream env.rings ∧
      a1.prev_consumed = ring_consumed s.stream env.rings ∧
      ∀ (ts : List (Nat × aoc_rings)) (w2 : World) (env2 : prepare_env),
        run w1 (ts.map (fun t => Op.Tick t.1 t.2)) = some w2 →
        env2.lock_interrupted = false →
        ∃ (w3 : World) (a3 : aoc_alsa_stream),
          snd_aoc_pcm_prepare w2 s env2 = some (w3, env2.prepare_phonecall_ret) ∧
          w3.heap p = some a3 ∧ a3.pos = 0 ∧ a3.n_overflow = 0 ∧
          a3.hw_ptr_base = ring_consumed s.stream env2.rings ∧
          a3.prev_consumed = ring_consumed s.stream env2.rings := by
  obtain ⟨w1, e1, pd1, _, a1, heap1, _, _, pos1, n1, base1, prev1, _⟩ :=
    prepare_locked w s env p a hp ha hl
  refine ⟨w1, a1, e1, heap1, pos1, n1, base1, prev1, ?_⟩
  intro ts w2 env2 hrun hl2
  obtain ⟨hpd, hheap⟩ := run_ticks_frame ts w1 w2 hrun
  obtain ⟨a2, heap2⟩ := hheap p a1 heap1
  obtain ⟨w3, e3, _, _, a3, heap3, _, _, pos3, n3, base3, prev3, _⟩ :=
    prepare_locked w2 s env2 p a2 (by rw [hpd]; exact pd1) heap2 hl2
  exact ⟨w3, a3, e3, heap3, pos3, n3, base3, prev3⟩

/-- C7, at a concrete run: the opened playback stream is prepared at counter 0 with a
1920-byte buffer, ticked with the samples 100 and 50 (a regression, so `n_overflow`
becomes 1 and `pos` 306), and prepared again at counter 50: both Prepares leave `pos = 0`
and `n_overflow = 0`. -/
theorem prepare_idempotent_witness :
    ∃ (w1 w2 w3 : World) (a1 a2 a3 : aoc_alsa_stream),
      snd_aoc_pcm_prepare world_opened playback0 (prepare_ok 1920 0) = some (w1, 0) ∧
      w1.heap 0 = some a1 ∧ a1.pos = 0 ∧ a1.n_overflow = 0 ∧
      run w1 [Op.Tick 0 (rings_at 100), Op.Tick 0 (rings_at 50)] = some w2 ∧
      w2.heap 0 = some a2 ∧ a2.pos = 306 ∧ a2.n_overflow = 1 ∧
      snd_aoc_pcm_prepare w2 playback0 (prepare_ok 1920 50) = some (w3, 0) ∧
      w3.heap 0 = some a3 ∧ a3.pos = 0 ∧ a3.n_overflow = 0 ∧
      a3.hw_ptr_base = 50 ∧ a3.prev_consumed = 50 := by
  obtain ⟨w1, a1, e1, heap1, pos1, n1, _, _, again⟩ :=
    prepare_idempotent world_opened playback0 (prepare_ok 1920 0) 0 stream_opened
      (by decide) (by decide) (by decide)
  have e1c : snd_aoc_pcm_prepare world_opened playback0 (prepare_ok 1920 0)
      = some (world_prepared, 0) := rfl
  have hw1 : w1 = world_prepared := by
    rw [e1c] at e1
    exact (congrArg Prod.fst (Option.some.inj e1)).symm
  subst hw1
  have hrun : run world_prepared [Op.Tick 0 (rings_at 100), Op.Tick 0 (rings_at 50)]
      = some world_ticked := rfl
  obtain ⟨w3, a3, e3, heap3, pos3, n3, base3, prev3⟩ :=
    again [(0, rings_at 100), (0, rings_at 50)] world_ticked (prepare_ok 1920 50) hrun
      (by decide)
  have h2 : (world_ticked.heap 0).map (fun r => (r.pos, r.n_overflow)) = some (306, 1) := by
    decide
  cases h2c : world_ticked.heap 0 with
  | none => rw [h2c] at h2; exact absurd h2 (by decide)
  | some a2 =>
    rw [h2c] at h2
    simp only [Option.map_some', Option.some.injEq, Prod.mk.injEq] at h2
    exact ⟨world_prepared, world_ticked, w3, a1, a2, a3, e1, heap1, pos1, n1, hrun, h2c,
      h2.1, h2.2, e3, heap3, pos3, n3, base3.trans (by decide), prev3.trans (by decide)⟩

/-! ## The position invariant -/

theorem handler_pos_lt (a a1 : aoc_alsa_stream) (hw : aoc_rings) (ev : List Event)
    (h : aoc_pcm_timer_irq_handler a hw = some (a1, ev))
    (hinv : 0 < a.buffer_size → a.pos < a.buffer_size) :
    0 < a1.buffer_size → a1.pos < a1.buffer_size := by
  by_cases heq : consumed_of a hw = a.prev_consumed
  · rw [handler_noop a hw heq] at h
    simp only [Option.some.injEq, Prod.mk.injEq] at h
    rw [← h.1]
    exact hinv
  · by_cases hB : a.buffer_size = 0
    · rw [handler_div_by_zero a hw hB heq] at h
      exact absurd h (by simp)
    · obtain ⟨r, hr, _, _, hpos, _, hbuf, _, _⟩ :=
        handler_moved a hw (Nat.pos_of_ne_zero hB) heq
      rw [hr] at h
      simp only [Option.some.injEq, Prod.mk.injEq] at h
      rw [← h.1, hbuf, hpos]
      intro hpos0
      split
      · exact Nat.mod_lt _ hpos0
      · exact Nat.mod_lt _ hpos0

theorem update_pos_lt (h : Nat → Option aoc_alsa_stream) (q : Nat)
    (b : Option aoc_alsa_stream)
    (hinv : ∀ (p : Nat) (a : aoc_alsa_stream), h p = some a →
              0 < a.buffer_size → a.pos < a.buffer_size)
    (hb : ∀ a : aoc_alsa_stream, b = some a → 0 < a.buffer_size → a.pos < a.buffer_size) :
    ∀ (p : Nat) (a : aoc_alsa_stream), Function.update h q b p = some a →
      0 < a.buffer_size → a.pos < a.buffer_size := by
  intro p a ha
  by_cases hpq : p = q
  · subst hpq
    rw [Function.update_same] at ha
    exact hb a ha
  · rw [Function.update_noteq hpq] at ha
    exact hinv p a ha

theorem open_pos_lt (w w1 : World) (s : snd_pcm_substream) (env : open_env) (ret : Int)
    (h : snd_aoc_pcm_open w s env = some (w1, ret))
    (hinv : ∀ (p : Nat) (a : aoc_alsa_stream), w.heap p = some a →
              0 < a.buffer_size → a.pos < a.buffer_size) :
    ∀ (p : Nat) (a : aoc_alsa_stream), w1.heap p = some a →
      0 < a.buffer_size → a.pos < a.buffer_size := by
  rcases open_cases w s env with
    ⟨e, _⟩ | ⟨w2, r2, e, _, _, _, _, hheap, _⟩ |
    ⟨w2, a2, e, _, _, _, _, _, _, hheap, _, _, _, _, hbuf⟩
  · rw [e] at h
    exact absurd h (by simp)
  · rw [e] at h
    simp only [Option.some.injEq, Prod.mk.injEq] at h
    rw [← h.1, hheap]
    exact hinv
  · rw [e] at h
    simp only [Option.some.injEq, Prod.mk.injEq] at h
    rw [← h.1, hheap]
    apply update_pos_lt _ _ _ hinv
    intro a ha
    simp only [Option.some.injEq] at ha
    subst ha
    intro hpos
    rw [hbuf] at hpos
    exact absurd hpos (Nat.lt_irrefl 0)

theorem hw_params_pos_lt (w w1 : World) (s : snd_pcm_substream)
    (params : snd_pcm_hw_params) (mr ret : Int)
    (h : snd_aoc_pcm_hw_params w s params mr = some (w1, ret))
    (hinv : ∀ (p : Nat) (a : aoc_alsa_stream), w.heap p = some a →
              0 < a.buffer_size → a.pos < a.buffer_size) :
    ∀ (p : Nat) (a : aoc_alsa_stream), w1.heap p = some a →
      0 < a.buffer_size → a.pos < a.buffer_size := by
  unfold snd_aoc_pcm_hw_params at h
  by_cases hm : mr < 0
  · simp [hm] at h
    rw [← h.1]
    exact hinv
  · cases hp : w.private_data s with
    | none => simp [hm, hp] at h
    | some q =>
      cases hq : w.heap q with
      | none => simp [hm, hp, hq] at h
      | some b =>
        simp [hm, hp, hq] at h
        rw [← h.1]
        apply update_pos_lt _ _ _ hinv
        intro a ha
        simp only [Option.some.injEq] at ha
        subst ha
        exact hinv q b hq

theorem prepare_pos_lt (w w1 : World) (s : snd_pcm_substream) (env : prepare_env)
    (ret : Int) (h : snd_aoc_pcm_prepare w s env = some (w1, ret))
    (hinv : ∀ (p : Nat) (a : aoc_alsa_stream), w.heap p = some a →
              0 < a.buffer_size → a.pos < a.buffer_size) :
    ∀ (p : Nat) (a : aoc_alsa_stream), w1.heap p = some a →
      0 < a.buffer_size → a.pos < a.buffer_size := by
  unfold snd_aoc_pcm_prepare at h
  cases hp : w.private_data s with
  | none => simp [hp] at h
  | some q =>
    cases hq : w.heap q with
    | none => simp [hp, hq] at h
    | some b =>
      by_cases hl : env.lock_interrupted = true
      · simp [hp, hq, hl] at h
        rw [← h.1]
        apply update_pos_lt _ _ _ hinv
        intro a ha
        simp only [Option.some.injEq] at ha
        subst ha
        exact hinv q b hq
      · simp [hp, hq, hl] at h
        rw [← h.1]
        apply update_pos_lt _ _ _ hinv
        intro a ha
        simp only [Option.some.injEq] at ha
        subst ha
        exact fun hpos => hpos

theorem close_pos_lt (w w1 : World) (s : snd_pcm_substream) (env : close_env)
    (ret : Int) (h : snd_aoc_pcm_close w s env = some (w1, ret))
    (hinv : ∀ (p : Nat) (a : aoc_alsa_stream), w.heap p = some a →
              0 < a.buffer_size → a.pos < a.buffer_size) :
    ∀ (p : Nat) (a : aoc_alsa_stream), w1.heap p = some a →
      0 < a.buffer_size → a.pos < a.buffer_size := by
  cases hp : w.private_data s with
  | none => simp [snd_aoc_pcm_close, hp] at h
  | some q =>
    cases hq : w.heap q with
    | none => simp [snd_aoc_pcm_close, hp, hq] at h
    | some b =>
      cases hl : env.lock_interrupted with
      | true =>
        obtain ⟨w2, e2, _, hheap, _⟩ := close_interrupted w s env q b hp hq hl
        rw [e2] at h
        simp only [Option.some.injEq, Prod.mk.injEq] at h
        rw [← h.1, hheap]
        apply update_pos_lt _ _ _ hinv
        intro a ha
        simp only [Option.some.injEq] at ha
        subst ha
        exact hinv q b hq
      | false =>
        obtain ⟨w2, a2, e2, _, _, hheap, _, _, _, ha2⟩ := close_locked w s env q b hp hq hl
        rw [e2] at h
        simp only [Option.some.injEq, Prod.mk.injEq] at h
        rw [← h.1, hheap]
        apply update_pos_lt _ _ _ hinv
        intro a ha
        simp only [Option.some.injEq] at ha
        subst ha
        rw [ha2]
        intro hpos
        exact absurd hpos (Nat.lt_irrefl 0)

theorem tick_pos_lt (w w1 : World) (q : Nat) (hw : aoc_rings)
    (h : timer_tick w q hw = some w1)
    (hinv : ∀ (p : Nat) (a : aoc_alsa_stream), w.heap p = some a →
              0 < a.buffer_size → a.pos < a.buffer_size) :
    ∀ (p : Nat) (a : aoc_alsa_stream), w1.heap p = some a →
      0 < a.buffer_size → a.pos < a.buffer_size := by
  unfold timer_tick at h
  cases hq : w.heap q with
  | none => simp [hq] at h
  | some b =>
    cases hh : aoc_pcm_timer_irq_handler b hw with
    | none => simp [hq, hh] at h
    | some r =>
      obtain ⟨b1, ev⟩ := r
      simp [hq, hh] at h
      subst h
      apply update_pos_lt _ _ _ hinv
      intro a ha
      simp only [Option.some.injEq] at ha
      subst ha
      exact handler_pos_lt b b1 hw ev hh (hinv q b hq)

theorem step_pos_lt (w w1 : World) (op : Op) (hstep : step w op = some w1)
    (hinv : ∀ (p : Nat) (a : aoc_alsa_stream), w.heap p = some a →
              0 < a.buffer_size → a.pos < a.buffer_size) :
    ∀ (p : Nat) (a : aoc_alsa_stream), w1.heap p = some a →
      0 < a.buffer_size → a.pos < a.buffer_size := by
  cases op with
  | Open s env =>
    simp only [step, Option.map_eq_some'] at hstep
    obtain ⟨⟨w2, ret⟩, h, hw⟩ := hstep
    simp only at hw
    subst hw
    exact open_pos_lt w w2 s env ret h hinv
  | Configure s params mr =>
    simp only [step, Option.map_eq_some'] at hstep
    obtain ⟨⟨w2, ret⟩, h, hw⟩ := hstep
    simp only at hw
    subst hw
    exact hw_params_pos_lt w w2 s params mr ret h hinv
  | Prepare s env =>
    simp only [step, Option.map_eq_some'] at hstep
    obtain ⟨⟨w2, ret⟩, h, hw⟩ := hstep
    simp only at hw
    subst hw
    exact prepare_pos_lt w w2 s env ret h hinv
  | Tick q hw =>
    exact tick_pos_lt w w1 q hw hstep hinv
  | Close s env =>
    simp only [step, Option.map_eq_some'] at hstep
    obtain ⟨⟨w2, ret⟩, h, hw⟩ := hstep
    simp only at hw
    subst hw
    exact close_pos_lt w w2 s env ret h hinv

theorem reachable_run (ops : List Op) :
    ∀ (w w1 : World), Reachable w → run w ops = some w1 → Reachable w1 := by
  induction ops with
  | nil =>
    intro w w1 hw h
    simp only [run, Option.some.injEq] at h
    subst h
    exact hw
  | cons op rest ih =>
    intro w w1 hw h
    simp only [run] at h
    cases hs : step w op with
    | none => simp [hs] at h
    | some w2 =>
      simp only [hs] at h
      exact ih w2 w1 (Reachable.step w w2 op hw hs) h

theorem reachable_pos_lt (w : World) (hreach : Reachable w) :
    ∀ (p : Nat) (a : aoc_alsa_stream), w.heap p = some a →
      0 < a.buffer_size → a.pos < a.buffer_size := by
  induction hreach with
  | init =>
    intro p a ha
    simp [World.empty] at ha
  | step w0 w1 op _ hstep ih => exact step_pos_lt w0 w1 op hstep ih

/-- C1: in every state reachable from the empty registry by Open, Configure, Prepare,
timer ticks and Close, under any counter samples and any results of the external calls,
every stream record with `buffer_size > 0` has `pos < buffer_size`. -/
theorem pos_lt_buffer_size (w : World) (hreach : Reachable w) (p : Nat)
    (a : aoc_alsa_stream) (ha : w.heap p = some a) (hB : 0 < a.buffer_size) :
    a.pos < a.buffer_size :=
  reachable_pos_lt w hreach p a ha hB

/-- C1, at a concrete reachable state: after Open, Prepare (1920-byte buffer, counter 0)
and ticks with the samples 100 and 50, the record has `pos = 306 < 1920`. -/
theorem pos_lt_buffer_size_witness :
    Reachable world_ticked ∧ world_ticked.heap 0 = some stream_ticked ∧
    0 < stream_ticked.buffer_size ∧ stream_ticked.pos < stream_ticked.buffer_size := by
  have hrun : run World.empty
      [Op.Open playback0 (open_ok 0 0), Op.Prepare playback0 (prepare_ok 1920 0),
       Op.Tick 0 (rings_at 100), Op.Tick 0 (rings_at 50)] = some world_ticked := rfl
  have hreach : Reachable world_ticked := reachable_run _ _ _ Reachable.init hrun
  have hheap : world_ticked.heap 0 = some stream_ticked := by decide
  exact ⟨hreach, hheap, by decide,
    pos_lt_buffer_size world_ticked hreach 0 stream_ticked hheap (by decide)⟩

/-! ## Close -/

theorem int_bit_testBit (i j : Nat) : (int_bit i).testBit j = decide (i % 32 = j) := by
  unfold int_bit
  rw [Nat.one_shiftLeft, Nat.testBit_two_pow]

theorem clear_opened_testBit_self (m i : Nat) : (clear_opened m i).testBit i = false := by
  have e : UINT_SPACE = 2 ^ 32 := by norm_num [UINT_SPACE]
  unfold clear_opened
  rw [e, Nat.testBit_mod_two_pow, Nat.testBit_xor, Nat.testBit_and, int_bit_testBit]
  by_cases hi : i < 32
  · have h32 : i % 32 = i := Nat.mod_eq_of_lt hi
    simp [h32]
  · simp [hi]

theorem clear_opened_testBit_other (m i j : Nat) (hj : j < 32) (h : i % 32 ≠ j) :
    (clear_opened m i).testBit j = m.testBit j := by
  have e : UINT_SPACE = 2 ^ 32 := by norm_num [UINT_SPACE]
  unfold clear_opened
  rw [e, Nat.testBit_mod_two_pow, Nat.testBit_xor, Nat.testBit_and, int_bit_testBit]
  simp [hj, h]

theorem set_opened_testBit_self (m i : Nat) (hi : i < 32) :
    (set_opened m i).testBit i = true := by
  have e : UINT_SPACE = 2 ^ 32 := by norm_num [UINT_SPACE]
  have h32 : i % 32 = i := Nat.mod_eq_of_lt hi
  unfold set_opened
  rw [e, Nat.testBit_mod_two_pow, Nat.testBit_or, int_bit_testBit]
  simp [hi, h32]

theorem set_opened_testBit_other (m i j : Nat) (hj : j < 32) (h : i % 32 ≠ j) :
    (set_opened m i).testBit j = m.testBit j := by
  have e : UINT_SPACE = 2 ^ 32 := by norm_num [UINT_SPACE]
  unfold set_opened
  rw [e, Nat.testBit_mod_two_pow, Nat.testBit_or, int_bit_testBit]
  simp [hj, h]

/-- C8 (as stated) fails: in the state reached by opening the playback stream of device 0,
a Close whose lock acquisition is interrupted returns `-EINTR` (-4) and leaves the record
at address 0 registered in slot 0 with bit 0 of the mask set. -/
theorem close_interrupted_keeps_slot :
    Reachable world_opened ∧
    (snd_aoc_pcm_close world_opened playback0
        { lock_interrupted := true, teardown_ret := 0, audio_stop_ret := 0 }).map
      (fun r => (r.2, r.1.chip.alsa_stream 0, r.1.chip.opened.testBit 0))
      = some (-4, some 0, true) := by
  refine ⟨?_, by decide⟩
  exact Reachable.step World.empty world_opened (Op.Open playback0 (open_ok 0 0))
    Reachable.init rfl

/-- C8 (amended): for every state in which the substream has a stream record (`running`
or not) and for every result of the external calls, Close returns with the stream's timer
disarmed; when the lock acquisition succeeds it returns 0 and leaves slot `idx` empty and
bit `idx` of the opened mask clear; when the lock acquisition is interrupted it returns
`-EINTR` and leaves the slot array and the mask as they were. -/
theorem close_frees (w : World) (s : snd_pcm_substream) (env : close_env)
    (p : Nat) (a : aoc_alsa_stream)
    (hp : w.private_data s = some p) (ha : w.heap p = some a) :
    ∃ (w1 : World) (ret : Int) (a1 : aoc_alsa_stream),
      snd_aoc_pcm_close w s env = some (w1, ret) ∧
      w1.heap p = some a1 ∧ a1.timer_pending = false ∧
      (env.lock_interrupted = false →
        ret = 0 ∧ w1.chip.alsa_stream a.idx = none ∧ w1.chip.opened.testBit a.idx = false ∧
        a1.running = false) ∧
      (env.lock_interrupted = true → ret = -EINTR ∧ w1.chip = w.chip) := by
  cases hl : env.lock_interrupted with
  | true =>
    obtain ⟨w1, e1, hchip, hheap, _⟩ := close_interrupted w s env p a hp ha hl
    refine ⟨w1, -EINTR, { a with timer_pending := false }, e1, ?_, rfl, ?_, ?_⟩
    · rw [hheap]; simp
    · intro h; exact absurd h (by simp)
    · intro _; exact ⟨rfl, hchip⟩
  | false =>
    obtain ⟨w1, a1, e1, hslot, hmask, hheap, _, _, _, ha1⟩ :=
      close_locked w s env p a hp ha hl
    refine ⟨w1, 0, a1, e1, ?_, ?_, ?_, ?_⟩
    · rw [hheap]; simp
    · rw [ha1]
    · intro _
      refine ⟨rfl, ?_, ?_, ?_⟩
      · rw [hslot]; simp
      · rw [hmask]; exact clear_opened_testBit_self _ _
      · rw [ha1]
    · intro h; exact absurd h (by simp)

/-- C8 (amended), at a concrete input: the running playback stream of device 0 is closed
with no prior stop while both teardown calls fail; Close returns 0, slot 0 is empty, bit 0
is clear and the timer is disarmed. -/
theorem close_frees_witness :
    world_running.private_data playback0 = some 0 ∧
    world_running.heap 0 = some stream_running ∧
    stream_running.running = true ∧ stream_running.timer_pending = true ∧
    ∃ (w1 : World) (a1 : aoc_alsa_stream),
      snd_aoc_pcm_close world_running playback0 close_errors = some (w1, 0) ∧
      w1.heap 0 = some a1 ∧ a1.timer_pending = false ∧ a1.running = false ∧
      w1.chip.alsa_stream 0 = none ∧ w1.chip.opened.testBit 0 = false := by
  have hp : world_running.private_data playback0 = some 0 := by decide
  have ha : world_running.heap 0 = some stream_running := by decide
  obtain ⟨w1, ret, a1, e1, heap1, t1, hlocked, _⟩ :=
    close_frees world_running playback0 close_errors 0 stream_running hp ha
  obtain ⟨hret, hslot, hbit, hrun⟩ := hlocked rfl
  subst hret
  exact ⟨hp, ha, by decide, by decide, w1, a1, e1, heap1, t1, hrun, hslot, hbit⟩

/-! ## Open -/

/-- C9 (defect in the code): with the lock acquired, the audio service (handle 3) and the
record allocated, and `aoc_audio_open` returning -5, `snd_aoc_pcm_open` frees the record
with `kfree(alsa_stream)` before `goto out` and frees it again at `out:`; the call has no
defined result, on the registry holding the opened playback stream of device 0 and on the
empty registry alike. -/
theorem open_audio_failure_frees_twice :
    open_audio_fails.lock_interrupted = false ∧ 0 ≤ open_audio_fails.alloc_ret ∧
    open_audio_fails.kzalloc_fails = false ∧ open_audio_fails.audio_open_ret = -5 ∧
    snd_aoc_pcm_open world_opened capture0 open_audio_fails = none ∧
    snd_aoc_pcm_open World.empty playback0 open_audio_fails = none := by
  exact ⟨by decide, by decide, by decide, by decide, rfl, rfl⟩

/-- C10 (as stated) fails: after the playback substream of device 0 was opened (record at
address 0 in slot 0), an Open of the capture substream of the same device, with every
external call succeeding, also returns 0 and puts its own record (address 1) in slot 0:
both Opens on index 0 succeed. -/
theorem second_open_succeeds :
    Reachable world_opened ∧
    (snd_aoc_pcm_open World.empty playback0 (open_ok 0 0)).map Prod.snd = some 0 ∧
    world_opened.chip.alsa_stream capture0.device = some 0 ∧
    (snd_aoc_pcm_open world_opened capture0 (open_ok 1 0)).map
      (fun r => (r.2, r.1.chip.alsa_stream capture0.device)) = some (0, some 1) := by
  refine ⟨?_, by decide, by decide, by decide⟩
  exact Reachable.step World.empty world_opened (Op.Open playback0 (open_ok 0 0))
    Reachable.init rfl

/-- C10 (amended): `snd_aoc_pcm_open` does not look at the slot.  On every registry state
in which slot `idx` is occupied, a further Open on the same index whose lock acquisition
is interrupted or whose `alloc_aoc_audio_service` or `kzalloc` call fails returns that
failure's code (`-EINTR`, the allocator's own code when the audio service is unavailable,
`-ENOMEM`) and leaves the occupying record registered in slot `idx`; a further Open whose
external calls all succeed returns 0 as well and registers its new record in slot
`idx`. -/
theorem open_on_occupied_slot (w : World) (s : snd_pcm_substream) (env : open_env)
    (p0 : Nat) (hocc : w.chip.alsa_stream s.device = some p0) :
    ((env.lock_interrupted = true ∨ env.alloc_ret < 0 ∨ env.kzalloc_fails = true) →
      ∃ (w1 : World) (ret : Int),
        snd_aoc_pcm_open w s env = some (w1, ret) ∧ ret ≠ 0 ∧
        ret = (if env.lock_interrupted = true then -EINTR
               else if env.alloc_ret < 0 then env.alloc_ret else -ENOMEM) ∧
        w1.chip.alsa_stream s.device = some p0 ∧ w1.chip.opened = w.chip.opened) ∧
    (env.lock_interrupted = false → 0 ≤ env.alloc_ret → env.kzalloc_fails = false →
      env.audio_open_ret = 0 →
      ∃ (w1 : World) (a : aoc_alsa_stream),
        snd_aoc_pcm_open w s env = some (w1, 0) ∧
        w1.chip.alsa_stream s.device = some w.brk ∧ w1.heap w.brk = some a ∧
        a.substream = s ∧ a.open_ = true) := by
  constructor
  · intro hfail
    rcases open_cases w s env with
      ⟨_, h1, h2, h3, _⟩ | ⟨w1, ret, e, hne, _, hret, hchip, _⟩ |
      ⟨_, _, _, h1, h2, h3, _⟩
    · rcases hfail with h | h | h
      · rw [h1] at h; exact absurd h (by simp)
      · exact absurd h (not_lt.mpr h2)
      · rw [h3] at h; exact absurd h (by simp)
    · exact ⟨w1, ret, e, hne, hret, by rw [hchip]; exact hocc, by rw [hchip]⟩
    · rcases hfail with h | h | h
      · rw [h1] at h; exact absurd h (by simp)
      · exact absurd h (not_lt.mpr h2)
      · rw [h3] at h; exact absurd h (by simp)
  · intro h1 h2 h3 h4
    obtain ⟨w1, e1, _, hslot, _, a, heap1, sub1, _, _, hopen, _⟩ :=
      open_success w s env h1 h2 h3 h4
    exact ⟨w1, a, e1, hslot, heap1, sub1, hopen⟩

/-- C10 (amended), at concrete inputs: with the playback stream of device 0 registered in
slot 0, an Open of the capture substream returns -12 and leaves record 0 in the slot when
`kzalloc` fails, and returns 0 with record 1 in the slot when every call succeeds. -/
theorem open_on_occupied_slot_witness :
    world_opened.chip.alsa_stream capture0.device = some 0 ∧
    (∃ w1 : World,
      snd_aoc_pcm_open world_opened capture0 open_kzalloc_fails = some (w1, -12) ∧
      w1.chip.alsa_stream capture0.device = some 0) ∧
    (∃ w1 : World,
      snd_aoc_pcm_open world_opened capture0 (open_ok 1 0) = some (w1, 0) ∧
      w1.chip.alsa_stream capture0.device = some world_opened.brk) := by
  have hocc : world_opened.chip.alsa_stream capture0.device = some 0 := by decide
  obtain ⟨hfail, _⟩ :=
    open_on_occupied_slot world_opened capture0 open_kzalloc_fails 0 hocc
  obtain ⟨_, hok⟩ := open_on_occupied_slot world_opened capture0 (open_ok 1 0) 0 hocc
  obtain ⟨w1, ret, e1, _, hret, hslot1, _⟩ := hfail (Or.inr (Or.inr (by decide)))
  obtain ⟨w2, a2, e2, hslot2, _⟩ := hok (by decide) (by decide) (by decide) (by decide)
  have hr : ret = -12 := hret.trans (by decide)
  subst hr
  exact ⟨hocc, ⟨w1, e1, hslot1⟩, ⟨w2, e2, hslot2⟩⟩

/-- C12: for every registry state, every slot index in the range of the mask
(`idx < 32`) and every direction, when the lock is acquired and every external call of
Open succeeds, Open returns 0 and the new record is registered in slot `idx` with bit
`idx` of the opened mask set, `open = true`, `n_overflow = 0`,
`buffer_size = period_size = pos = 0`, and `hw_ptr_base = prev_consumed =` the counter
selected by the direction (bytes read from the down-link ring for playback, bytes written
to the up-link ring for capture, as an `unsigned long`); the timer is set up
(`timer_setup`) and not started. -/
theorem open_postcondition (w : World) (s : snd_pcm_substream) (env : open_env)
    (hrange : s.device < 32)
    (h1 : env.lock_interrupted = false) (h2 : 0 ≤ env.alloc_ret)
    (h3 : env.kzalloc_fails = false) (h4 : env.audio_open_ret = 0) :
    ∃ (w1 : World) (a : aoc_alsa_stream),
      snd_aoc_pcm_open w s env = some (w1, 0) ∧
      w1.chip.alsa_stream s.device = some w.brk ∧ w1.heap w.brk = some a ∧
      w1.chip.opened.testBit s.device = true ∧
      a.idx = s.device ∧ a.open_ = true ∧ a.n_overflow = 0 ∧
      a.buffer_size = 0 ∧ a.period_size = 0 ∧ a.pos = 0 ∧
      a.prev_consumed = a.hw_ptr_base ∧
      (s.stream = snd_pcm_stream.SNDRV_PCM_STREAM_PLAYBACK →
        a.hw_ptr_base = env.rings.bytes_read_down % 2 ^ 64) ∧
      (s.stream = snd_pcm_stream.SNDRV_PCM_STREAM_CAPTURE →
        a.hw_ptr_base = env.rings.bytes_written_up % 2 ^ 64) ∧
      a.timer_pending = false ∧
      w1.trace = w.trace ++
        [Event.mutex_lock_interruptible true, Event.alloc_aoc_audio_service env.alloc_ret,
         Event.kzalloc (some w.brk), Event.aoc_audio_open s env.audio_open_ret,
         Event.timer_setup s, Event.mutex_unlock] := by
  obtain ⟨w1, e1, _, hslot, hmask, a, heap1, _, hidx, _, hopen, hn, hbuf, hper, hpos, hbase,
    hprev, htimer, _⟩ := open_success w s env h1 h2 h3 h4
  have h2n : ¬ env.alloc_ret < 0 := not_lt.mpr h2
  have htrace : (snd_aoc_pcm_open w s env).map (fun r => r.1.trace) = some (w.trace ++
      [Event.mutex_lock_interruptible true, Event.alloc_aoc_audio_service env.alloc_ret,
       Event.kzalloc (some w.brk), Event.aoc_audio_open s env.audio_open_ret,
       Event.timer_setup s, Event.mutex_unlock]) := by
    simp [snd_aoc_pcm_open, h1, h2n, h3, h4]
  rw [e1] at htrace
  simp only [Option.map_some', Option.some.injEq] at htrace
  refine ⟨w1, a, e1, hslot, heap1, ?_, hidx, hopen, hn, hbuf, hper, hpos,
    hprev.trans hbase.symm, ?_, ?_, htimer, htrace⟩
  · rw [hmask]; exact set_opened_testBit_self _ _ hrange
  · intro hs
    rw [hbase]
    simp [ring_consumed, hs, ULONG_SPACE]
  · intro hs
    rw [hbase]
    simp [ring_consumed, hs, ULONG_SPACE]

/-- C12, at concrete inputs: opening the capture substream of device 0 on the empty
registry while the rings read 111 (down-link, read) and 222 (up-link, written) returns 0,
registers record 0 in slot 0, sets bit 0 and samples 222. -/
theorem open_postcondition_witness :
    ∃ (w1 : World) (a : aoc_alsa_stream),
      snd_aoc_pcm_open World.empty capture0 open_ok_split = some (w1, 0) ∧
      w1.chip.alsa_stream 0 = some 0 ∧ w1.heap 0 = some a ∧
      w1.chip.opened.testBit 0 = true ∧ a.open_ = true ∧ a.n_overflow = 0 ∧
      a.buffer_size = 0 ∧ a.period_size = 0 ∧ a.pos = 0 ∧
      a.hw_ptr_base = 222 ∧ a.prev_consumed = 222 ∧ a.timer_pending = false := by
  obtain ⟨w1, a, e1, hslot, heap1, hbit, _, hopen, hn, hbuf, hper, hpos, hprev, _, hcap,
    htimer, _⟩ :=
    open_postcondition World.empty capture0 open_ok_split (by decide) (by decide)
      (by decide) (by decide) (by decide)
  have hbase : a.hw_ptr_base = 222 := (hcap rfl).trans (by decide)
  exact ⟨w1, a, e1, hslot, heap1, hbit, hopen, hn, hbuf, hper, hpos, hbase,
    hprev.trans hbase, htimer⟩

/-! ## Configure -/

/-- C13: for every stream record and every parameter set, if the transfer-buffer
allocation fails (`snd_pcm_lib_malloc_pages` returns a negative value) that value is
returned and the record is left as it was; if it succeeds the record holds exactly the
requested channel count, sample rate, the bit width of the requested format and the float
flag `format = FLOAT_LE`, and `pos`, `prev_consumed`, `n_overflow`, `hw_ptr_base`,
`buffer_size` and `period_size` are unchanged. -/
theorem hw_params_contract (w : World) (s : snd_pcm_substream) (params : snd_pcm_hw_params)
    (mr : Int) (p : Nat) (a : aoc_alsa_stream)
    (hp : w.private_data s = some p) (ha : w.heap p = some a) :
    ∃ (w1 : World) (a1 : aoc_alsa_stream),
      snd_aoc_pcm_hw_params w s params mr = some (w1, mr) ∧ w1.heap p = some a1 ∧
      w1.chip = w.chip ∧
      (mr < 0 →
        a1 = a ∧ w1.heap = w.heap) ∧
      (0 ≤ mr →
        a1.channels = params.channels ∧ a1.params_rate = params.rate ∧
        a1.pcm_format_width = snd_pcm_format_width params.format ∧
        (a1.pcm_float_fmt = true ↔
          params.format = snd_pcm_format.SNDRV_PCM_FORMAT_FLOAT_LE) ∧
        a1.pos = a.pos ∧ a1.prev_consumed = a.prev_consumed ∧
        a1.n_overflow = a.n_overflow ∧ a1.hw_ptr_base = a.hw_ptr_base ∧
        a1.buffer_size = a.buffer_size ∧ a1.period_size = a.period_size) := by
  by_cases hm : mr < 0
  · refine ⟨{ w with trace := w.trace ++
        [Event.snd_pcm_lib_malloc_pages params.buffer_bytes mr] }, a, ?_, ?_, ?_, ?_, ?_⟩
    · simp [snd_aoc_pcm_hw_params, hm]
    · exact ha
    · rfl
    · intro _; exact ⟨rfl, rfl⟩
    · intro h; exact absurd hm (not_lt.mpr h)
  · obtain ⟨w1, e1, _, hchip, a1, heap1, _, _, hch, hrate, hwidth, hfloat, hpos, hprev, hn,
      hbase, hbuf, hper⟩ := hw_params_success w s params mr p a hp ha (not_lt.mp hm)
    refine ⟨w1, a1, e1, heap1, hchip, ?_, ?_⟩
    · intro h; exact absurd h hm
    · intro _
      refine ⟨hch, hrate, hwidth, ?_, hpos, hprev, hn, hbase, hbuf, hper⟩
      rw [hfloat]
      simp

/-- C13, at concrete inputs on the opened playback stream of device 0: a failed
allocation (-12) leaves the record as it was; a successful one with mono 16 kHz float
samples stores 1 channel, 16000 Hz, 32 bits and the float flag. -/
theorem hw_params_contract_witness :
    (∃ (w1 : World),
      snd_aoc_pcm_hw_params world_opened playback0 params_mono_float (-12)
        = some (w1, -12) ∧ w1.heap 0 = some stream_opened) ∧
    (∃ (w1 : World) (a1 : aoc_alsa_stream),
      snd_aoc_pcm_hw_params world_opened playback0 params_mono_float 0 = some (w1, 0) ∧
      w1.heap 0 = some a1 ∧ a1.channels = 1 ∧ a1.params_rate = 16000 ∧
      a1.pcm_format_width = 32 ∧ a1.pcm_float_fmt = true ∧
      a1.pos = 0 ∧ a1.buffer_size = 0) := by
  have hp : world_opened.private_data playback0 = some 0 := by decide
  have ha : world_opened.heap 0 = some stream_opened := by decide
  obtain ⟨w1, a1, e1, heap1, _, hfail, _⟩ :=
    hw_params_contract world_opened playback0 params_mono_float (-12) 0 stream_opened hp ha
  obtain ⟨w2, a2, e2, heap2, _, _, hok⟩ :=
    hw_params_contract world_opened playback0 params_mono_float 0 0 stream_opened hp ha
  obtain ⟨hch, hrate, hwidth, hfloat, hpos, _, _, _, hbuf, _⟩ := hok (by decide)
  refine ⟨⟨w1, e1, ?_⟩, ⟨w2, a2, e2, heap2, hch, hrate, hwidth, hfloat.mpr rfl, hpos, hbuf⟩⟩
  rw [heap1, (hfail (by decide)).1]

/-! ## Prepare and the session calls -/

/-- C14 (as stated) fails: on the configured playback stream of device 0, a Prepare in
which `aoc_audio_set_params` fails with -5 and `prepare_phonecall` succeeds returns 0: the
set-up failure is in the trace of calls but not in the value returned. -/
theorem prepare_hides_set_params_failure :
    prepare_set_params_fails.lock_interrupted = false ∧
    prepare_set_params_fails.set_params_ret < 0 ∧
    (snd_aoc_pcm_prepare world_configured playback0 prepare_set_params_fails).map
      (fun r => (r.2, decide (Event.aoc_audio_set_params playback0 2 48000 16 false (-5)
                                ∈ r.1.trace)))
      = some (0, true) := by
  decide

/-- C14 (amended): for every stream record and every outcome of `aoc_audio_set_params`
and `prepare_phonecall`, a Prepare that acquires the chip lock returns and leaves exactly
the state a Prepare with both calls succeeding leaves (`buffer_size` and `period_size`
from the transfer buffer, `pos = 0`, `n_overflow = 0`, `hw_ptr_base = prev_consumed =` the
current counter); the value returned is the result of `prepare_phonecall`, so a
`prepare_phonecall` failure reaches the caller and an `aoc_audio_set_params` failure does
not. -/
theorem prepare_best_effort (w : World) (s : snd_pcm_substream) (env : prepare_env)
    (p : Nat) (a : aoc_alsa_stream)
    (hp : w.private_data s = some p) (ha : w.heap p = some a)
    (hl : env.lock_interrupted = false) :
    ∃ (w1 w0 : World) (a1 : aoc_alsa_stream),
      snd_aoc_pcm_prepare w s env = some (w1, env.prepare_phonecall_ret) ∧
      snd_aoc_pcm_prepare w s { env with set_params_ret := 0, prepare_phonecall_ret := 0 }
        = some (w0, 0) ∧
      w1.heap = w0.heap ∧ w1.chip = w0.chip ∧ w1.private_data = w0.private_data ∧
      w1.services = w0.services ∧
      w1.heap p = some a1 ∧
      a1.buffer_size = env.buffer_bytes ∧ a1.period_size = env.period_bytes ∧
      a1.pos = 0 ∧ a1.n_overflow = 0 ∧
      a1.hw_ptr_base = ring_consumed s.stream env.rings ∧
      a1.prev_consumed = ring_consumed s.stream env.rings := by
  refine ⟨_, _,
    { a with
      timer_pending := false
      buffer_size := env.buffer_bytes
      period_size := env.period_bytes
      pos := 0
      hw_ptr_base := ring_consumed s.stream env.rings
      prev_consumed := ring_consumed s.stream env.rings
      n_overflow := 0 },
    prepare_locked_eq w s env p a hp ha hl,
    prepare_locked_eq w s { env with set_params_ret := 0, prepare_phonecall_ret := 0 }
      p a hp ha hl, rfl, rfl, rfl, rfl, ?_, rfl, rfl, rfl, rfl, rfl, rfl⟩
  simp

/-- C14 (amended), at a concrete input: on the configured playback stream a Prepare in
which both session calls fail (-5 and -7) returns -7 and leaves the record prepared. -/
theorem prepare_best_effort_witness :
    ∃ (w1 : World) (a1 : aoc_alsa_stream),
      snd_aoc_pcm_prepare world_configured playback0 prepare_both_fail = some (w1, -7) ∧
      w1.heap 0 = some a1 ∧ a1.buffer_size = 1920 ∧ a1.period_size = 480 ∧
      a1.pos = 0 ∧ a1.n_overflow = 0 ∧ a1.hw_ptr_base = 0 ∧ a1.prev_consumed = 0 := by
  obtain ⟨w1, _, a1, e1, _, _, _, _, _, heap1, hbuf, hper, hpos, hn, hbase, hprev⟩ :=
    prepare_best_effort world_configured playback0 prepare_both_fail 0 stream_configured
      (by decide) (by decide) (by decide)
  exact ⟨w1, a1, e1, heap1, hbuf, hper, hpos, hn, hbase.trans (by decide),
    hprev.trans (by decide)⟩

/-! ## Teardown -/

/-- C15: for every stream record on which Close acquires the chip lock, and for every
result of `teardown_phonecall` and `aoc_audio_stop`, Close returns 0 and ends with
`running = false`, `open = false`, `buffer_size = 0`, `period_size = 0`, slot `idx` empty
and bit `idx` of the opened mask clear; `aoc_audio_stop` is among the calls Close makes if
and only if `running` was true on entry. -/
theorem close_teardown (w : World) (s : snd_pcm_substream) (env : close_env)
    (p : Nat) (a : aoc_alsa_stream)
    (hp : w.private_data s = some p) (ha : w.heap p = some a)
    (hl : env.lock_interrupted = false) :
    ∃ (w1 : World) (a1 : aoc_alsa_stream) (evs : List Event),
      snd_aoc_pcm_close w s env = some (w1, 0) ∧ w1.heap p = some a1 ∧
      a1.running = false ∧ a1.open_ = false ∧ a1.buffer_size = 0 ∧ a1.period_size = 0 ∧
      w1.chip.alsa_stream a.idx = none ∧ w1.chip.opened.testBit a.idx = false ∧
      w1.trace = w.trace ++ evs ∧
      (Event.aoc_audio_stop a.substream env.audio_stop_ret ∈ evs ↔ a.running = true) ∧
      (∀ (s1 : snd_pcm_substream) (r : Int),
        Event.aoc_audio_stop s1 r ∈ evs → a.running = true) := by
  obtain ⟨w1, a1, e1, hslot, hmask, hheap, _, _, htrace, ha1⟩ :=
    close_locked w s env p a hp ha hl
  refine ⟨w1, a1,
    [Event.aoc_timer_stop_sync a.substream, Event.mutex_lock_interruptible true,
      Event.teardown_phonecall a.substream env.teardown_ret,
      Event.free_aoc_audio_service a.dev] ++
      (if a.running then [Event.aoc_audio_stop a.substream env.audio_stop_ret] else []) ++
      (if a.open_ then [Event.aoc_audio_close a.substream] else []) ++
      [Event.mutex_unlock], e1, ?_, ?_, ?_, ?_, ?_, ?_, ?_, ?_, ?_, ?_⟩
  · rw [hheap]; simp
  · rw [ha1]
  · rw [ha1]
  · rw [ha1]
  · rw [ha1]
  · rw [hslot]; simp
  · rw [hmask]; exact clear_opened_testBit_self _ _
  · rw [htrace]; simp [List.append_assoc]
  · cases a.running <;> cases a.open_ <;> simp
  · intro s1 r
    cases a.running <;> cases a.open_ <;> simp

/-- C15, at a concrete input: the running playback stream of device 0 is closed while
`teardown_phonecall` and `aoc_audio_stop` both return -5; Close returns 0, the record is
stopped and closed with zero geometry, slot 0 is empty, bit 0 is clear and
`aoc_audio_stop` was called. -/
theorem close_teardown_witness :
    stream_running.running = true ∧
    ∃ (w1 : World) (a1 : aoc_alsa_stream),
      snd_aoc_pcm_close world_running playback0 close_errors = some (w1, 0) ∧
      w1.heap 0 = some a1 ∧
      a1.running = false ∧ a1.open_ = false ∧ a1.buffer_size = 0 ∧ a1.period_size = 0 ∧
      w1.chip.alsa_stream 0 = none ∧ w1.chip.opened.testBit 0 = false ∧
      Event.aoc_audio_stop playback0 (-5) ∈ w1.trace := by
  obtain ⟨w1, a1, evs, e1, heap1, hrun, hopen, hbuf, hper, hslot, hbit, htrace, hstop, _⟩ :=
    close_teardown world_running playback0 close_errors 0 stream_running
      (by decide) (by decide) (by decide)
  refine ⟨by decide, w1, a1, e1, heap1, hrun, hopen, hbuf, hper, hslot, hbit, ?_⟩
  rw [htrace]
  exact List.mem_append_right _ (hstop.mpr (by decide))

/-! ## Prepare and the timer -/

/-- C16 (as stated) fails: after Prepare completes on the opened and configured playback
stream of device 0 (lock acquired, every call succeeding) the stream's timer is not
pending, and the calls made since the registry was empty contain `aoc_timer_stop_sync`
but no `aoc_timer_start`. -/
theorem prepare_leaves_timer_stopped :
    (snd_aoc_pcm_prepare world_configured playback0 (prepare_ok 1920 0)).map
      (fun r => (r.2, (r.1.heap 0).map (fun a => a.timer_pending),
                 decide (Event.aoc_timer_stop_sync playback0 ∈ r.1.trace),
                 decide (Event.aoc_timer_start playback0 ∈ r.1.trace)))
      = some (0, some false, true, false) := by
  decide

/-- C16 (amended): for every stream record, when Prepare completes, whichever way the
lock acquisition and the external calls went, the stream's periodic timer is not started:
the first call Prepare makes is `aoc_timer_stop_sync`, none of its calls is
`aoc_timer_start`, and on return the timer is not pending. -/
theorem prepare_stops_timer (w : World) (s : snd_pcm_substream) (env : prepare_env)
    (p : Nat) (a : aoc_alsa_stream)
    (hp : w.private_data s = some p) (ha : w.heap p = some a) :
    ∃ (w1 : World) (ret : Int) (a1 : aoc_alsa_stream) (evs : List Event),
      snd_aoc_pcm_prepare w s env = some (w1, ret) ∧ w1.heap p = some a1 ∧
      a1.timer_pending = false ∧
      w1.trace = w.trace ++ Event.aoc_timer_stop_sync a.substream :: evs ∧
      (∀ s1 : snd_pcm_substream, Event.aoc_timer_start s1 ∉ evs) := by
  cases hl : env.lock_interrupted with
  | true =>
    refine ⟨_, _, { a with timer_pending := false }, _,
      prepare_interrupted_eq w s env p a hp ha hl, ?_, rfl, rfl, ?_⟩
    · simp
    · intro s1; simp
  | false =>
    refine ⟨_, _,
      { a with
        timer_pending := false
        buffer_size := env.buffer_bytes
        period_size := env.period_bytes
        pos := 0
        hw_ptr_base := ring_consumed s.stream env.rings
        prev_consumed := ring_consumed s.stream env.rings
        n_overflow := 0 }, _,
      prepare_locked_eq w s env p a hp ha hl, ?_, rfl, rfl, ?_⟩
    · simp
    · intro s1; simp

/-- C16 (amended), at a concrete input: Prepare on the running playback stream of
device 0, whose timer is armed on entry, returns with the timer not pending after calling
`aoc_timer_stop_sync`. -/
theorem prepare_stops_timer_witness :
    world_running.private_data playback0 = some 0 ∧
    world_running.heap 0 = some stream_running ∧
    stream_running.timer_pending = true ∧
    ∃ (w1 : World) (ret : Int) (a1 : aoc_alsa_stream) (evs : List Event),
      snd_aoc_pcm_prepare world_running playback0 (prepare_ok 1920 0) = some (w1, ret) ∧
      w1.heap 0 = some a1 ∧ a1.timer_pending = false ∧
      w1.trace = world_running.trace ++ Event.aoc_timer_stop_sync playback0 :: evs ∧
      (∀ s1 : snd_pcm_substream, Event.aoc_timer_start s1 ∉ evs) := by
  have hp : world_running.private_data playback0 = some 0 := by decide
  have ha : world_running.heap 0 = some stream_running := by decide
  exact ⟨hp, ha, by decide,
    prepare_stops_timer world_running playback0 (prepare_ok 1920 0) 0 stream_running hp ha⟩

/-! ## Ticks across counter wraps -/

theorem wrap_tick_step (a : aoc_alsa_stream) (hw : aoc_rings) (B T0 T U : Nat)
    (hc : consumed_of a hw = U % 4294967296)
    (hTU : T ≤ U) (hd : U - T < 4294967296) (hU : U < 9223372036854775808)
    (hT0 : T0 ≤ T) (hbuf : a.buffer_size = B) (hB : 0 < B)
    (hbase : a.hw_ptr_base = T0 % 4294967296) (hprev : a.prev_consumed = T % 4294967296)
    (hn : a.n_overflow = T / 4294967296 - T0 / 4294967296)
    (hpos : a.pos = (T - T0) % B) :
    ∃ r : aoc_alsa_stream, tick a hw = some r ∧
      r.substream = a.substream ∧ r.buffer_size = B ∧
      r.hw_ptr_base = T0 % 4294967296 ∧ r.prev_consumed = U % 4294967296 ∧
      r.n_overflow = U / 4294967296 - T0 / 4294967296 ∧
      r.pos = (U - T0) % B := by
  obtain ⟨r, hr, rprev, rn, rbase, rbuf, _, rsub, rsame, rmove⟩ :=
    tick_spec a hw (by rw [hbuf]; exact hB)
  rw [hc] at rprev rn rsame rmove
  rw [hprev] at rn rsame rmove
  rw [hn] at rn
  have hn1 : r.n_overflow = U / 4294967296 - T0 / 4294967296 := by
    rw [rn]
    split
    · omega
    · omega
  refine ⟨r, hr, rsub, by rw [rbuf, hbuf], by rw [rbase, hbase], rprev, hn1, ?_⟩
  by_cases heq : U % 4294967296 = T % 4294967296
  · have hUT : U = T := by omega
    rw [rsame heq, hpos, hUT]
  · rw [rmove heq, hbase, hbuf, hn1]
    split
    · rw [wrap64_of_range]
      · congr 1
        omega
      · omega
      · omega
    · rw [wrap64_of_range]
      · congr 1
        omega
      · omega
      · omega

theorem wrap_ticks (st : snd_pcm_stream) (B T0 p : Nat) (hB : 0 < B) :
    ∀ (cs : List aoc_rings) (Ts : List Nat),
      List.Forall₂ (fun hw U => ring_consumed st hw = U % 4294967296) cs Ts →
      ∀ (w : World) (a : aoc_alsa_stream) (T : Nat),
        List.Chain (fun x y => x ≤ y ∧ y - x < 4294967296) T Ts →
        (∀ U ∈ Ts, U < 9223372036854775808) →
        w.heap p = some a → a.substream.stream = st → a.buffer_size = B → T0 ≤ T →
        a.hw_ptr_base = T0 % 4294967296 → a.prev_consumed = T % 4294967296 →
        a.n_overflow = T / 4294967296 - T0 / 4294967296 → a.pos = (T - T0) % B →
        ∀ (i : Nat) (hi : i < Ts.length),
          ∃ (wi : World) (ai : aoc_alsa_stream),
            run w ((cs.take (i + 1)).map (Op.Tick p)) = some wi ∧ wi.heap p = some ai ∧
            ai.hw_ptr_base = T0 % 4294967296 ∧
            ai.prev_consumed = Ts.get ⟨i, hi⟩ % 4294967296 ∧
            ai.n_overflow = Ts.get ⟨i, hi⟩ / 4294967296 - T0 / 4294967296 ∧
            ai.pos = (Ts.get ⟨i, hi⟩ - T0) % B ∧ T0 ≤ Ts.get ⟨i, hi⟩ := by
  intro cs Ts hrel
  induction hrel with
  | nil => intro w a T _ _ _ _ _ _ _ _ _ _ i hi; exact absurd hi (Nat.not_lt_zero _)
  | @cons c U cs1 Ts1 hcU _ ih =>
    intro w a T hch hbound ha hst hbuf hT0 hbase hprev hn hpos i hi
    rw [List.chain_cons] at hch
    obtain ⟨⟨hTU, hd⟩, hrest⟩ := hch
    have hU : U < 9223372036854775808 := hbound U (List.mem_cons_self _ _)
    have hc : consumed_of a c = U % 4294967296 := by
      unfold consumed_of
      rw [hst]
      exact hcU
    obtain ⟨r, hr, rsub, rbuf, rbase, rprev, rn, rpos⟩ :=
      wrap_tick_step a c B T0 T U hc hTU hd hU hT0 hbuf hB hbase hprev hn hpos
    obtain ⟨w1, hw1, hheap1, _, _⟩ := timer_tick_spec w p a c ha r hr
    cases i with
    | zero =>
      refine ⟨w1, r, ?_, hheap1, rbase, ?_, ?_, ?_, ?_⟩
      · simp [run, step, hw1]
      · simpa using rprev
      · simpa using rn
      · simpa using rpos
      · simpa using hT0.trans hTU
    | succ j =>
      have hj : j < Ts1.length := by simpa using hi
      obtain ⟨wi, ai, hrun, hheap, hb, hp1, hn1, hpos1, hle⟩ :=
        ih w1 r U hrest (fun V hV => hbound V (List.mem_cons_of_mem _ hV)) hheap1
          (by rw [rsub]; exact hst) rbuf (hT0.trans hTU) rbase rprev rn rpos j hj
      refine ⟨wi, ai, ?_, hheap, hb, ?_, ?_, ?_, ?_⟩
      · simp only [List.take_succ_cons, List.map_cons, run, step, hw1]
        exact hrun
      · simpa using hp1
      · simpa using hn1
      · simpa using hpos1
      · simpa using hle

/-- C18: let `T0 ≤ T_1 ≤ ... ≤ T_k` be true cumulative byte counts below `2 ^ 63` with
every increment below `2 ^ 32`, reported by the hardware modulo `2 ^ 32`.  For every
stream prepared (lock acquired) at the sample `T0 mod 2 ^ 32` with a buffer of `B > 0`
bytes and then ticked with the samples `T_i mod 2 ^ 32`, every tick returns, and after the
`i`-th tick `n_overflow = T_i / 2 ^ 32 - T0 / 2 ^ 32` and `pos = (T_i - T0) mod B`; the
handler's 64-bit arithmetic does not wrap: `n_overflow < 2 ^ 31`, and
`consumed + 2 ^ 32 * n_overflow` lies below `2 ^ 63`, is at least `hw_ptr_base`, and
exceeds it by exactly `T_i - T0`. -/
theorem accurate_offset_across_wraps (w : World) (s : snd_pcm_substream)
    (env : prepare_env) (p : Nat) (a : aoc_alsa_stream) (T0 : Nat) (Ts : List Nat)
    (cs : List aoc_rings)
    (hp : w.private_data s = some p) (ha : w.heap p = some a) (hs : a.substream = s)
    (hl : env.lock_interrupted = false) (hB : 0 < env.buffer_bytes)
    (h0 : ring_consumed s.stream env.rings = T0 % 2 ^ 32)
    (hsamples : List.Forall₂ (fun hw U => ring_consumed s.stream hw = U % 2 ^ 32) cs Ts)
    (hchain : List.Chain (fun x y => x ≤ y ∧ y - x < 2 ^ 32) T0 Ts)
    (hbound : ∀ U ∈ Ts, U < 2 ^ 63) :
    ∃ w1 : World,
      snd_aoc_pcm_prepare w s env = some (w1, env.prepare_phonecall_ret) ∧
      ∀ (i : Nat) (hi : i < Ts.length),
        ∃ (wi : World) (ai : aoc_alsa_stream),
          run w1 ((cs.take (i + 1)).map (Op.Tick p)) = some wi ∧ wi.heap p = some ai ∧
          ai.n_overflow = Ts.get ⟨i, hi⟩ / 2 ^ 32 - T0 / 2 ^ 32 ∧
          ai.pos = (Ts.get ⟨i, hi⟩ - T0) % env.buffer_bytes ∧
          ai.n_overflow < 2 ^ 31 ∧
          ai.prev_consumed + 2 ^ 32 * ai.n_overflow < 2 ^ 63 ∧
          ai.hw_ptr_base ≤ ai.prev_consumed + 2 ^ 32 * ai.n_overflow ∧
          ai.prev_consumed + 2 ^ 32 * ai.n_overflow - ai.hw_ptr_base
            = Ts.get ⟨i, hi⟩ - T0 := by
  obtain ⟨w1, e1, _, _, a1, heap1, sub1, _, pos1, n1, base1, prev1, buf1, _⟩ :=
    prepare_locked w s env p a hp ha hl
  refine ⟨w1, e1, ?_⟩
  intro i hi
  have e32 : (2 : Nat) ^ 32 = 4294967296 := by norm_num
  have e63 : (2 : Nat) ^ 63 = 9223372036854775808 := by norm_num
  have e31 : (2 : Nat) ^ 31 = 2147483648 := by norm_num
  rw [e32] at h0 hsamples hchain
  rw [e63] at hbound
  obtain ⟨wi, ai, hrun, hheap, hb, hpv, hn, hpos, hle⟩ :=
    wrap_ticks s.stream env.buffer_bytes T0 p hB cs Ts hsamples w1 a1 T0 hchain hbound
      heap1 (by rw [sub1, hs]) buf1 (Nat.le_refl _) (by rw [base1, h0])
      (by rw [prev1, h0]) (by rw [n1]; omega) (by rw [pos1]; simp) i hi
  have hUb : Ts.get ⟨i, hi⟩ < 9223372036854775808 := hbound _ (List.get_mem _ _ _)
  rw [e32, e63, e31]
  refine ⟨wi, ai, hrun, hheap, hn, hpos, ?_, ?_, ?_, ?_⟩
  · omega
  · omega
  · omega
  · omega

/-- C18, at a concrete run with two wraps: the opened playback stream of device 0 is
prepared with a 1920-byte buffer when the true count is `2 ^ 32 - 100`, then ticked at the
true counts `2 ^ 32 + 50` and `2 * 2 ^ 32 + 10` (samples 50 and 10): `n_overflow` is 1
then 2 and `pos` is `150` then `(2 ^ 32 + 110) mod 1920 = 366`. -/
theorem accurate_offset_across_wraps_witness :
    ∃ (w1 w2 w3 : World) (a2 a3 : aoc_alsa_stream),
      snd_aoc_pcm_prepare world_opened playback0 (prepare_ok 1920 4294967196)
        = some (w1, 0) ∧
      run w1 [Op.Tick 0 (rings_at 50)] = some w2 ∧ w2.heap 0 = some a2 ∧
      a2.n_overflow = 1 ∧ a2.pos = 150 ∧
      run w1 [Op.Tick 0 (rings_at 50), Op.Tick 0 (rings_at 10)] = some w3 ∧
      w3.heap 0 = some a3 ∧ a3.n_overflow = 2 ∧ a3.pos = 366 := by
  obtain ⟨w1, e1, key⟩ :=
    accurate_offset_across_wraps world_opened playback0 (prepare_ok 1920 4294967196) 0
      stream_opened 4294967196 [4294967346, 8589934602] [rings_at 50, rings_at 10]
      (by decide) (by decide) (by decide) (by decide) (by decide) (by decide)
      (List.Forall₂.cons (by decide) (List.Forall₂.cons (by decide) List.Forall₂.nil))
      (List.Chain.cons (by decide) (List.Chain.cons (by decide) List.Chain.nil))
      (by
        intro U hU
        simp only [List.mem_cons, List.mem_singleton, List.not_mem_nil, or_false] at hU
        rcases hU with h | h <;> rw [h] <;> norm_num)
  obtain ⟨w2, a2, r2, h2, n2, p2, _⟩ := key 0 (by decide)
  obtain ⟨w3, a3, r3, h3, n3, p3, _⟩ := key 1 (by decide)
  exact ⟨w1, w2, w3, a2, a3, e1, r2, h2, n2.trans (by decide), p2.trans (by decide),
    r3, h3, n3.trans (by decide), p3.trans (by decide)⟩

/-! ## Registry consistency -/

theorem handler_frame (a : aoc_alsa_stream) (hw : aoc_rings) (r : aoc_alsa_stream)
    (ev : List Event) (h : aoc_pcm_timer_irq_handler a hw = some (r, ev)) :
    r.open_ = a.open_ ∧ r.idx = a.idx := by
  by_cases heq : consumed_of a hw = a.prev_consumed
  · rw [handler_noop a hw heq] at h
    simp only [Option.some.injEq, Prod.mk.injEq] at h
    rw [← h.1]
    exact ⟨rfl, rfl⟩
  · by_cases hB : a.buffer_size = 0
    · rw [handler_div_by_zero a hw hB heq] at h
      exact absurd h (by simp)
    · have key : ∃ a1 : aoc_alsa_stream, ∃ ev1 : List Event,
          aoc_pcm_timer_irq_handler a hw = some (a1, ev1) ∧
          a1.open_ = a.open_ ∧ a1.idx = a.idx := by
        unfold consumed_of at heq
        by_cases hlt : ring_consumed a.substream.stream hw < a.prev_consumed
        · by_cases hn : (a.n_overflow + 1) % 4294967296 = 0
          · simp [aoc_pcm_timer_irq_handler, aoc_timer_start, heq, hlt, hB, hn, UINT_SPACE]
          · simp [aoc_pcm_timer_irq_handler, aoc_timer_start, heq, hlt, hB, hn, UINT_SPACE]
        · by_cases hn : a.n_overflow = 0
          · simp [aoc_pcm_timer_irq_handler, aoc_timer_start, heq, hlt, hB, hn, UINT_SPACE]
          · simp [aoc_pcm_timer_irq_handler, aoc_timer_start, heq, hlt, hB, hn, UINT_SPACE]
      obtain ⟨a1, ev1, h1, ht⟩ := key
      rw [h1] at h
      simp only [Option.some.injEq, Prod.mk.injEq] at h
      rw [← h.1]
      exact ht

theorem hw_params_frame (w w1 : World) (s : snd_pcm_substream)
    (params : snd_pcm_hw_params) (mr ret : Int)
    (h : snd_aoc_pcm_hw_params w s params mr = some (w1, ret)) :
    w1.chip = w.chip ∧ w1.brk = w.brk ∧
    (w1.heap = w.heap ∨
      ∃ (p : Nat) (a a1 : aoc_alsa_stream), w.heap p = some a ∧
        w1.heap = Function.update w.heap p (some a1) ∧
        a1.open_ = a.open_ ∧ a1.idx = a.idx) := by
  unfold snd_aoc_pcm_hw_params at h
  by_cases hm : mr < 0
  · simp [hm] at h
    rw [← h.1]
    exact ⟨rfl, rfl, Or.inl rfl⟩
  · cases hp : w.private_data s with
    | none => simp [hm, hp] at h
    | some q =>
      cases hq : w.heap q with
      | none => simp [hm, hp, hq] at h
      | some b =>
        simp [hm, hp, hq] at h
        rw [← h.1]
        exact ⟨rfl, rfl, Or.inr ⟨q, b, _, hq, rfl, rfl, rfl⟩⟩

theorem prepare_frame (w w1 : World) (s : snd_pcm_substream) (env : prepare_env)
    (ret : Int) (h : snd_aoc_pcm_prepare w s env = some (w1, ret)) :
    w1.chip = w.chip ∧ w1.brk = w.brk ∧
    (w1.heap = w.heap ∨
      ∃ (p : Nat) (a a1 : aoc_alsa_stream), w.heap p = some a ∧
        w1.heap = Function.update w.heap p (some a1) ∧
        a1.open_ = a.open_ ∧ a1.idx = a.idx) := by
  cases hp : w.private_data s with
  | none => simp [snd_aoc_pcm_prepare, hp] at h
  | some q =>
    cases hq : w.heap q with
    | none => simp [snd_aoc_pcm_prepare, hp, hq] at h
    | some b =>
      cases hl : env.lock_interrupted with
      | true =>
        rw [prepare_interrupted_eq w s env q b hp hq hl] at h
        simp only [Option.some.injEq, Prod.mk.injEq] at h
        rw [← h.1]
        exact ⟨rfl, rfl, Or.inr ⟨q, b, _, hq, rfl, rfl, rfl⟩⟩
      | false =>
        rw [prepare_locked_eq w s env q b hp hq hl] at h
        simp only [Option.some.injEq, Prod.mk.injEq] at h
        rw [← h.1]
        exact ⟨rfl, rfl, Or.inr ⟨q, b, _, hq, rfl, rfl, rfl⟩⟩

theorem timer_tick_registry_frame (w w1 : World) (q : Nat) (hw : aoc_rings)
    (h : timer_tick w q hw = some w1) :
    w1.chip = w.chip ∧ w1.brk = w.brk ∧
    (w1.heap = w.heap ∨
      ∃ (p : Nat) (a a1 : aoc_alsa_stream), w.heap p = some a ∧
        w1.heap = Function.update w.heap p (some a1) ∧
        a1.open_ = a.open_ ∧ a1.idx = a.idx) := by
  unfold timer_tick at h
  cases hq : w.heap q with
  | none => simp [hq] at h
  | some b =>
    cases hh : aoc_pcm_timer_irq_handler b hw with
    | none => simp [hq, hh] at h
    | some r =>
      obtain ⟨b1, ev⟩ := r
      simp [hq, hh] at h
      subst h
      obtain ⟨ho, hi⟩ := handler_frame b hw b1 ev hh
      exact ⟨rfl, rfl, Or.inr ⟨q, b, b1, hq, rfl, ho, hi⟩⟩

theorem close_interrupted_frame (w w1 : World) (s : snd_pcm_substream) (env : close_env)
    (ret : Int) (h : snd_aoc_pcm_close w s env = some (w1, ret))
    (hl : env.lock_interrupted = true) :
    w1.chip = w.chip ∧ w1.brk = w.brk ∧
    (w1.heap = w.heap ∨
      ∃ (p : Nat) (a a1 : aoc_alsa_stream), w.heap p = some a ∧
        w1.heap = Function.update w.heap p (some a1) ∧
        a1.open_ = a.open_ ∧ a1.idx = a.idx) := by
  cases hp : w.private_data s with
  | none => simp [snd_aoc_pcm_close, hp] at h
  | some q =>
    cases hq : w.heap q with
    | none => simp [snd_aoc_pcm_close, hp, hq] at h
    | some b =>
      have e : snd_aoc_pcm_close w s env
          = some ({ w with
                    heap := Function.update w.heap q (some { b with timer_pending := false })
                    trace := w.trace ++
                      [Event.aoc_timer_stop_sync b.substream,
                       Event.mutex_lock_interruptible false] }, -EINTR) := by
        simp [snd_aoc_pcm_close, hp, hq, hl, aoc_timer_stop_sync]
      rw [e] at h
      simp only [Option.some.injEq, Prod.mk.injEq] at h
      rw [← h.1]
      exact ⟨rfl, rfl, Or.inr ⟨q, b, _, hq, rfl, rfl, rfl⟩⟩

theorem close_locked_eq (w : World) (s : snd_pcm_substream) (env : close_env)
    (p : Nat) (a : aoc_alsa_stream)
    (hp : w.private_data s = some p) (ha : w.heap p = some a)
    (hl : env.lock_interrupted = false) :
    ∃ w1 : World, snd_aoc_pcm_close w s env = some (w1, 0) ∧
      w1.chip.alsa_stream = Function.update w.chip.alsa_stream a.idx none ∧
      w1.chip.opened = clear_opened w.chip.opened a.idx ∧
      w1.brk = w.brk ∧
      w1.heap = Function.update w.heap p
        (some { a with running := false, open_ := false, buffer_size := 0,
                       period_size := 0, timer_pending := false }) := by
  cases hr : a.running <;> cases ho : a.open_ <;>
    simp [snd_aoc_pcm_close, hp, ha, hl, aoc_timer_stop_sync, hr, ho]

theorem registry_frame_step (w w1 : World)
    (hchip : w1.chip = w.chip) (hbrk : w1.brk = w.brk)
    (hheap : w1.heap = w.heap ∨
      ∃ (p : Nat) (a a1 : aoc_alsa_stream), w.heap p = some a ∧
        w1.heap = Function.update w.heap p (some a1) ∧
        a1.open_ = a.open_ ∧ a1.idx = a.idx)
    (hslot : ∀ (i p : Nat), w.chip.alsa_stream i = some p →
      ∃ a : aoc_alsa_stream, w.heap p = some a ∧ a.open_ = true ∧ a.idx = i)
    (hfresh : ∀ p : Nat, w.brk ≤ p → w.heap p = none) :
    (∀ (i p : Nat), w1.chip.alsa_stream i = some p →
      ∃ a : aoc_alsa_stream, w1.heap p = some a ∧ a.open_ = true ∧ a.idx = i) ∧
    (∀ p : Nat, w1.brk ≤ p → w1.heap p = none) := by
  rw [hchip, hbrk]
  rcases hheap with he | ⟨q, b, b1, hq, he, ho, hi⟩
  · rw [he]
    exact ⟨hslot, hfresh⟩
  · rw [he]
    refine ⟨?_, ?_⟩
    · intro i p hip
      obtain ⟨a, ha, hao, hai⟩ := hslot i p hip
      by_cases hpq : p = q
      · subst hpq
        rw [hq] at ha
        simp only [Option.some.injEq] at ha
        subst ha
        exact ⟨b1, by simp, ho.trans hao, hi.trans hai⟩
      · exact ⟨a, by simp [Function.update, hpq, ha], hao, hai⟩
    · intro p hp
      have hpq : p ≠ q := by
        intro hpq
        subst hpq
        rw [hfresh p hp] at hq
        exact absurd hq (by simp)
      simp [Function.update, hpq, hfresh p hp]

theorem registry_open_step (w w1 : World) (s : snd_pcm_substream) (env : open_env)
    (ret : Int) (h : snd_aoc_pcm_open w s env = some (w1, ret))
    (hslot : ∀ (i p : Nat), w.chip.alsa_stream i = some p →
      ∃ a : aoc_alsa_stream, w.heap p = some a ∧ a.open_ = true ∧ a.idx = i)
    (hfresh : ∀ p : Nat, w.brk ≤ p → w.heap p = none) :
    (∀ (i p : Nat), w1.chip.alsa_stream i = some p →
      ∃ a : aoc_alsa_stream, w1.heap p = some a ∧ a.open_ = true ∧ a.idx = i) ∧
    (∀ p : Nat, w1.brk ≤ p → w1.heap p = none) := by
  rcases open_cases w s env with
    ⟨e, _⟩ | ⟨w2, r2, e, _, _, _, hchip, hheap, hbrk, _⟩ |
    ⟨w2, a, e, _, _, _, _, hs, _, hheap, hbrk, hao, hai, _, _⟩
  · rw [e] at h
    exact absurd h (by simp)
  · rw [e] at h
    simp only [Option.some.injEq, Prod.mk.injEq] at h
    obtain ⟨hw, _⟩ := h
    subst hw
    rw [hchip, hheap, hbrk]
    exact ⟨hslot, hfresh⟩
  · rw [e] at h
    simp only [Option.some.injEq, Prod.mk.injEq] at h
    obtain ⟨hw, _⟩ := h
    subst hw
    rw [hs, hheap, hbrk]
    refine ⟨?_, ?_⟩
    · intro i p hip
      by_cases hi : i = s.device
      · subst hi
        rw [Function.update_same] at hip
        simp only [Option.some.injEq] at hip
        subst hip
        exact ⟨a, by simp, hao, hai⟩
      · rw [Function.update_noteq hi] at hip
        obtain ⟨b, hb, hbo, hbi⟩ := hslot i p hip
        have hpb : p ≠ w.brk := by
          intro hpb
          rw [hpb, hfresh w.brk (Nat.le_refl _)] at hb
          exact absurd hb (by simp)
        exact ⟨b, by rw [Function.update_noteq hpb]; exact hb, hbo, hbi⟩
    · intro p hp
      have hpb : p ≠ w.brk := by omega
      rw [Function.update_noteq hpb]
      exact hfresh p (by omega)

theorem registry_close_step (w w1 : World) (s : snd_pcm_substream) (env : close_env)
    (ret : Int) (h : snd_aoc_pcm_close w s env = some (w1, ret))
    (hslot : ∀ (i p : Nat), w.chip.alsa_stream i = some p →
      ∃ a : aoc_alsa_stream, w.heap p = some a ∧ a.open_ = true ∧ a.idx = i)
    (hfresh : ∀ p : Nat, w.brk ≤ p → w.heap p = none) :
    (∀ (i p : Nat), w1.chip.alsa_stream i = some p →
      ∃ a : aoc_alsa_stream, w1.heap p = some a ∧ a.open_ = true ∧ a.idx = i) ∧
    (∀ p : Nat, w1.brk ≤ p → w1.heap p = none) := by
  cases hl : env.lock_interrupted with
  | true =>
    obtain ⟨hchip, hbrk, hheap⟩ := close_interrupted_frame w w1 s env ret h hl
    exact registry_frame_step w w1 hchip hbrk hheap hslot hfresh
  | false =>
    cases hp : w.private_data s with
    | none => simp [snd_aoc_pcm_close, hp] at h
    | some q =>
      cases hq : w.heap q with
      | none => simp [snd_aoc_pcm_close, hp, hq] at h
      | some b =>
        obtain ⟨w2, e2, hs, _, hbrk, hheap⟩ := close_locked_eq w s env q b hp hq hl
        rw [e2] at h
        simp only [Option.some.injEq, Prod.mk.injEq] at h
        obtain ⟨hw, _⟩ := h
        subst hw
        rw [hs, hbrk, hheap]
        refine ⟨?_, ?_⟩
        · intro i p hip
          by_cases hi : i = b.idx
          · subst hi
            rw [Function.update_same] at hip
            exact absurd hip (by simp)
          · rw [Function.update_noteq hi] at hip
            obtain ⟨a, ha, hao, hai⟩ := hslot i p hip
            have hpq : p ≠ q := by
              intro hpq
              subst hpq
              rw [hq] at ha
              simp only [Option.some.injEq] at ha
              subst ha
              exact hi hai.symm
            exact ⟨a, by rw [Function.update_noteq hpq]; exact ha, hao, hai⟩
        · intro p hp1
          have hpq : p ≠ q := by
            intro hpq
            subst hpq
            rw [hfresh p hp1] at hq
            exact absurd hq (by simp)
          rw [Function.update_noteq hpq]
          exact hfresh p hp1

theorem registry_step (w w1 : World) (op : Op) (hstep : step w op = some w1)
    (hslot : ∀ (i p : Nat), w.chip.alsa_stream i = some p →
      ∃ a : aoc_alsa_stream, w.heap p = some a ∧ a.open_ = true ∧ a.idx = i)
    (hfresh : ∀ p : Nat, w.brk ≤ p → w.heap p = none) :
    (∀ (i p : Nat), w1.chip.alsa_stream i = some p →
      ∃ a : aoc_alsa_stream, w1.heap p = some a ∧ a.open_ = true ∧ a.idx = i) ∧
    (∀ p : Nat, w1.brk ≤ p → w1.heap p = none) := by
  cases op with
  | Open s env =>
    simp only [step, Option.map_eq_some'] at hstep
    obtain ⟨⟨w2, ret⟩, h, hw⟩ := hstep
    simp only at hw
    subst hw
    exact registry_open_step w w2 s env ret h hslot hfresh
  | Configure s params mr =>
    simp only [step, Option.map_eq_some'] at hstep
    obtain ⟨⟨w2, ret⟩, h, hw⟩ := hstep
    simp only at hw
    subst hw
    obtain ⟨hchip, hbrk, hheap⟩ := hw_params_frame w w2 s params mr ret h
    exact registry_frame_step w w2 hchip hbrk hheap hslot hfresh
  | Prepare s env =>
    simp only [step, Option.map_eq_some'] at hstep
    obtain ⟨⟨w2, ret⟩, h, hw⟩ := hstep
    simp only at hw
    subst hw
    obtain ⟨hchip, hbrk, hheap⟩ := prepare_frame w w2 s env ret h
    exact registry_frame_step w w2 hchip hbrk hheap hslot hfresh
  | Tick q hw =>
    obtain ⟨hchip, hbrk, hheap⟩ := timer_tick_registry_frame w w1 q hw hstep
    exact registry_frame_step w w1 hchip hbrk hheap hslot hfresh
  | Close s env =>
    simp only [step, Option.map_eq_some'] at hstep
    obtain ⟨⟨w2, ret⟩, h, hw⟩ := hstep
    simp only at hw
    subst hw
    exact registry_close_step w w2 s env ret h hslot hfresh

theorem reachable_registry (w : World) (hreach : Reachable w) :
    (∀ (i p : Nat), w.chip.alsa_stream i = some p →
      ∃ a : aoc_alsa_stream, w.heap p = some a ∧ a.open_ = true ∧ a.idx = i) ∧
    (∀ p : Nat, w.brk ≤ p → w.heap p = none) := by
  induction hreach with
  | init =>
    refine ⟨?_, ?_⟩
    · intro i p h; simp [World.empty] at h
    · intro p _; rfl
  | step w0 w1 op _ hstep ih =>
    exact registry_step w0 w1 op hstep ih.1 ih.2

theorem reachable_of_in_range (w : World) (h : ReachableInRange w) : Reachable w := by
  induction h with
  | init => exact Reachable.init
  | step w0 w1 op _ _ hstep ih => exact Reachable.step w0 w1 op ih hstep

theorem mask_frame_step (w w1 : World)
    (hchip : w1.chip = w.chip)
    (hheap : w1.heap = w.heap ∨
      ∃ (p : Nat) (a a1 : aoc_alsa_stream), w.heap p = some a ∧
        w1.heap = Function.update w.heap p (some a1) ∧
        a1.open_ = a.open_ ∧ a1.idx = a.idx)
    (hmask : ∀ i : Nat, i < 32 →
      (w.chip.alsa_stream i).isSome = w.chip.opened.testBit i)
    (hidx : ∀ (p : Nat) (a : aoc_alsa_stream), w.heap p = some a → a.idx < 32) :
    (∀ i : Nat, i < 32 → (w1.chip.alsa_stream i).isSome = w1.chip.opened.testBit i) ∧
    (∀ (p : Nat) (a : aoc_alsa_stream), w1.heap p = some a → a.idx < 32) := by
  rw [hchip]
  refine ⟨hmask, ?_⟩
  rcases hheap with he | ⟨q, b, b1, hq, he, _, hi⟩
  · rw [he]; exact hidx
  · rw [he]
    intro p a ha
    by_cases hpq : p = q
    · subst hpq
      rw [Function.update_same] at ha
      simp only [Option.some.injEq] at ha
      subst ha
      rw [hi]
      exact hidx p b hq
    · rw [Function.update_noteq hpq] at ha
      exact hidx p a ha

theorem mask_step (w w1 : World) (op : Op) (hin : op_in_range op)
    (hstep : step w op = some w1)
    (hmask : ∀ i : Nat, i < 32 →
      (w.chip.alsa_stream i).isSome = w.chip.opened.testBit i)
    (hidx : ∀ (p : Nat) (a : aoc_alsa_stream), w.heap p = some a → a.idx < 32) :
    (∀ i : Nat, i < 32 → (w1.chip.alsa_stream i).isSome = w1.chip.opened.testBit i) ∧
    (∀ (p : Nat) (a : aoc_alsa_stream), w1.heap p = some a → a.idx < 32) := by
  cases op with
  | Open s env =>
    simp only [step, Option.map_eq_some'] at hstep
    obtain ⟨⟨w2, ret⟩, h, hw⟩ := hstep
    simp only at hw
    subst hw
    simp only [op_in_range] at hin
    rcases open_cases w s env with
      ⟨e, _⟩ | ⟨w3, r3, e, _, _, _, hchip, hheap, _⟩ |
      ⟨w3, a, e, _, _, _, _, hs, hm, hheap, _, _, hai, _, _⟩
    · rw [e] at h
      exact absurd h (by simp)
    · rw [e] at h
      simp only [Option.some.injEq, Prod.mk.injEq] at h
      obtain ⟨hw, _⟩ := h
      subst hw
      rw [hchip, hheap]
      exact ⟨hmask, hidx⟩
    · rw [e] at h
      simp only [Option.some.injEq, Prod.mk.injEq] at h
      obtain ⟨hw, _⟩ := h
      subst hw
      have h32 : s.device % 32 = s.device := Nat.mod_eq_of_lt hin
      rw [hs, hm, hheap]
      refine ⟨?_, ?_⟩
      · intro i hi32
        by_cases hi : i = s.device
        · subst hi
          simp [set_opened_testBit_self _ _ hin]
        · rw [Function.update_noteq hi,
            set_opened_testBit_other _ _ _ hi32 (by rw [h32]; exact Ne.symm hi)]
          exact hmask i hi32
      · intro p b hb
        by_cases hpb : p = w.brk
        · subst hpb
          rw [Function.update_same] at hb
          simp only [Option.some.injEq] at hb
          subst hb
          rw [hai]
          exact hin
        · rw [Function.update_noteq hpb] at hb
          exact hidx p b hb
  | Configure s params mr =>
    simp only [step, Option.map_eq_some'] at hstep
    obtain ⟨⟨w2, ret⟩, h, hw⟩ := hstep
    simp only at hw
    subst hw
    obtain ⟨hchip, _, hheap⟩ := hw_params_frame w w2 s params mr ret h
    exact mask_frame_step w w2 hchip hheap hmask hidx
  | Prepare s env =>
    simp only [step, Option.map_eq_some'] at hstep
    obtain ⟨⟨w2, ret⟩, h, hw⟩ := hstep
    simp only at hw
    subst hw
    obtain ⟨hchip, _, hheap⟩ := prepare_frame w w2 s env ret h
    exact mask_frame_step w w2 hchip hheap hmask hidx
  | Tick q hw =>
    obtain ⟨hchip, _, hheap⟩ := timer_tick_registry_frame w w1 q hw hstep
    exact mask_frame_step w w1 hchip hheap hmask hidx
  | Close s env =>
    simp only [step, Option.map_eq_some'] at hstep
    obtain ⟨⟨w2, ret⟩, h, hw⟩ := hstep
    simp only at hw
    subst hw
    cases hl : env.lock_interrupted with
    | true =>
      obtain ⟨hchip, _, hheap⟩ := close_interrupted_frame w w2 s env ret h hl
      exact mask_frame_step w w2 hchip hheap hmask hidx
    | false =>
      cases hp : w.private_data s with
      | none => simp [snd_aoc_pcm_close, hp] at h
      | some q =>
        cases hq : w.heap q with
        | none => simp [snd_aoc_pcm_close, hp, hq] at h
        | some b =>
          obtain ⟨w3, e3, hs, hm, _, hheap⟩ := close_locked_eq w s env q b hp hq hl
          rw [e3] at h
          simp only [Option.some.injEq, Prod.mk.injEq] at h
          obtain ⟨hw, _⟩ := h
          subst hw
          have hb32 : b.idx < 32 := hidx q b hq
          have h32 : b.idx % 32 = b.idx := Nat.mod_eq_of_lt hb32
          rw [hs, hm, hheap]
          refine ⟨?_, ?_⟩
          · intro i hi32
            by_cases hi : i = b.idx
            · subst hi
              simp [clear_opened_testBit_self]
            · rw [Function.update_noteq hi,
                clear_opened_testBit_other _ _ _ hi32 (by rw [h32]; exact Ne.symm hi)]
              exact hmask i hi32
          · intro p a ha
            by_cases hpq : p = q
            · subst hpq
              rw [Function.update_same] at ha
              simp only [Option.some.injEq] at ha
              subst ha
              exact hb32
            · rw [Function.update_noteq hpq] at ha
              exact hidx p a ha

theorem in_range_mask (w : World) (hreach : ReachableInRange w) :
    (∀ i : Nat, i < 32 → (w.chip.alsa_stream i).isSome = w.chip.opened.testBit i) ∧
    (∀ (p : Nat) (a : aoc_alsa_stream), w.heap p = some a → a.idx < 32) := by
  induction hreach with
  | init =>
    refine ⟨?_, ?_⟩
    · intro i _; simp [World.empty]
    · intro p a ha; simp [World.empty] at ha
  | step w0 w1 op _ hin hstep ih =>
    exact mask_step w0 w1 op hin hstep ih.1 ih.2

theorem reachable_of_exclusive (w : World) (h : ReachableExclusive w) : Reachable w := by
  induction h with
  | init => exact Reachable.init
  | step w0 w1 op _ _ hstep ih => exact Reachable.step w0 w1 op ih hstep

theorem held_frame_step (w w1 : World)
    (hchip : w1.chip = w.chip)
    (hheap : w1.heap = w.heap ∨
      ∃ (p : Nat) (a a1 : aoc_alsa_stream), w.heap p = some a ∧
        w1.heap = Function.update w.heap p (some a1) ∧
        a1.open_ = a.open_ ∧ a1.idx = a.idx)
    (hheld : ∀ (p : Nat) (a : aoc_alsa_stream), w.heap p = some a → a.open_ = true →
      w.chip.alsa_stream a.idx = some p) :
    ∀ (p : Nat) (a : aoc_alsa_stream), w1.heap p = some a → a.open_ = true →
      w1.chip.alsa_stream a.idx = some p := by
  rw [hchip]
  rcases hheap with he | ⟨q, b, b1, hq, he, ho, hi⟩
  · rw [he]; exact hheld
  · rw [he]
    intro p a ha hao
    by_cases hpq : p = q
    · subst hpq
      rw [Function.update_same] at ha
      simp only [Option.some.injEq] at ha
      subst ha
      rw [hi]
      exact hheld p b hq (ho.symm.trans hao)
    · rw [Function.update_noteq hpq] at ha
      exact hheld p a ha hao

theorem held_step (w w1 : World) (op : Op) (hex : op_exclusive w op)
    (hstep : step w op = some w1)
    (hheld : ∀ (p : Nat) (a : aoc_alsa_stream), w.heap p = some a → a.open_ = true →
      w.chip.alsa_stream a.idx = some p) :
    ∀ (p : Nat) (a : aoc_alsa_stream), w1.heap p = some a → a.open_ = true →
      w1.chip.alsa_stream a.idx = some p := by
  cases op with
  | Open s env =>
    simp only [step, Option.map_eq_some'] at hstep
    obtain ⟨⟨w2, ret⟩, h, hw⟩ := hstep
    simp only at hw
    subst hw
    simp only [op_exclusive] at hex
    rcases open_cases w s env with
      ⟨e, _⟩ | ⟨w3, r3, e, _, _, _, hchip, hheap, _⟩ |
      ⟨w3, b, e, _, _, _, _, hs, _, hheap, _, _, hbi, _, _⟩
    · rw [e] at h
      exact absurd h (by simp)
    · rw [e] at h
      simp only [Option.some.injEq, Prod.mk.injEq] at h
      obtain ⟨hw, _⟩ := h
      subst hw
      rw [hchip, hheap]; exact hheld
    · rw [e] at h
      simp only [Option.some.injEq, Prod.mk.injEq] at h
      obtain ⟨hw, _⟩ := h
      subst hw
      rw [hs, hheap]
      intro p a ha hao
      by_cases hpb : p = w.brk
      · subst hpb
        rw [Function.update_same] at ha
        simp only [Option.some.injEq] at ha
        subst ha
        rw [hbi]
        simp
      · rw [Function.update_noteq hpb] at ha
        have hold := hheld p a ha hao
        have hidx : a.idx ≠ s.device := by
          intro hidx
          rw [hidx, hex] at hold
          exact absurd hold (by simp)
        rw [Function.update_noteq hidx]
        exact hold
  | Configure s params mr =>
    simp only [step, Option.map_eq_some'] at hstep
    obtain ⟨⟨w2, ret⟩, h, hw⟩ := hstep
    simp only at hw
    subst hw
    obtain ⟨hchip, _, hheap⟩ := hw_params_frame w w2 s params mr ret h
    exact held_frame_step w w2 hchip hheap hheld
  | Prepare s env =>
    simp only [step, Option.map_eq_some'] at hstep
    obtain ⟨⟨w2, ret⟩, h, hw⟩ := hstep
    simp only at hw
    subst hw
    obtain ⟨hchip, _, hheap⟩ := prepare_frame w w2 s env ret h
    exact held_frame_step w w2 hchip hheap hheld
  | Tick q hw =>
    obtain ⟨hchip, _, hheap⟩ := timer_tick_registry_frame w w1 q hw hstep
    exact held_frame_step w w1 hchip hheap hheld
  | Close s env =>
    simp only [step, Option.map_eq_some'] at hstep
    obtain ⟨⟨w2, ret⟩, h, hw⟩ := hstep
    simp only at hw
    subst hw
    simp only [op_exclusive] at hex
    obtain ⟨q, b, hp, hq, hbo⟩ := hex
    cases hl : env.lock_interrupted with
    | true =>
      obtain ⟨hchip, _, hheap⟩ := close_interrupted_frame w w2 s env ret h hl
      exact held_frame_step w w2 hchip hheap hheld
    | false =>
      obtain ⟨w3, e3, hs, _, _, hheap⟩ := close_locked_eq w s env q b hp hq hl
      rw [e3] at h
      simp only [Option.some.injEq, Prod.mk.injEq] at h
      obtain ⟨hw, _⟩ := h
      subst hw
      rw [hs, hheap]
      intro p a ha hao
      by_cases hpq : p = q
      · subst hpq
        rw [Function.update_same] at ha
        simp only [Option.some.injEq] at ha
        subst ha
        exact absurd hao (by simp)
      · rw [Function.update_noteq hpq] at ha
        have hold := hheld p a ha hao
        have hidx : a.idx ≠ b.idx := by
          intro hidx
          have hq2 := hheld q b hq hbo
          rw [hidx, hq2] at hold
          simp only [Option.some.injEq] at hold
          exact hpq hold.symm
        rw [Function.update_noteq hidx]
        exact hold

theorem exclusive_held (w : World) (hreach : ReachableExclusive w) :
    ∀ (p : Nat) (a : aoc_alsa_stream), w.heap p = some a → a.open_ = true →
      w.chip.alsa_stream a.idx = some p := by
  induction hreach with
  | init =>
    intro p a ha
    simp [World.empty] at ha
  | step w0 w1 op _ hex hstep ih =>
    exact held_step w0 w1 op hex hstep ih

/-- Outside the range the mask wraps: an Open of the playback substream of device 32 on
the state with device 0 open leaves the mask at `1` (bit `32 mod 32 = 0`), while slot 32
is filled. -/
theorem open_out_of_range_wraps :
    (snd_aoc_pcm_open world_opened playback32 (open_ok 1 0)).map
        (fun r => (r.1.chip.opened, r.1.chip.alsa_stream 32, r.1.chip.opened.testBit 32)) =
      some (1, some 1, false) := by
  decide

/-- C11 (as stated) fails: after the playback and then the capture substream of device 0
were opened, the playback record (address 0) still has `open = true` and `idx = 0`, but
slot 0 holds the capture record (address 1). -/
theorem open_record_not_in_slot :
    ReachableInRange world_two_opens ∧
    (world_two_opens.heap 0).map (fun a => (a.open_, a.idx)) = some (true, 0) ∧
    world_two_opens.chip.alsa_stream 0 = some 1 := by
  refine ⟨?_, by decide, by decide⟩
  have h1 : ReachableInRange world_opened :=
    ReachableInRange.step World.empty world_opened (Op.Open playback0 (open_ok 0 0))
      ReachableInRange.init (by simp [op_in_range, playback0]) rfl
  exact ReachableInRange.step world_opened world_two_opens
    (Op.Open capture0 (open_ok 1 0)) h1 (by simp [op_in_range, capture0]) rfl

/-- C11 (amended): starting from the empty registry, after any sequence of operations
(Open and Close, and also Configure, Prepare and timer ticks) whose Opens are on slot
indices in range (`idx < 32`), for every slot index `i` in range: slot `i` holds a record
if and only if bit `i` of the opened mask is set, and a record held in slot `i` has
`open = true` and `idx = i`.  Conversely, when no Open was issued for an occupied index
and no Close for a stream whose record was not open, a record is held in slot `idx` if
and only if it has `open = true`. -/
theorem registry_consistency (w : World) (hreach : ReachableInRange w) :
    (∀ i : Nat, i < 32 →
      ((∃ p : Nat, w.chip.alsa_stream i = some p) ↔ w.chip.opened.testBit i = true)) ∧
    (∀ (i p : Nat), w.chip.alsa_stream i = some p →
      ∃ a : aoc_alsa_stream, w.heap p = some a ∧ a.open_ = true ∧ a.idx = i) ∧
    (ReachableExclusive w →
      ∀ (p : Nat) (a : aoc_alsa_stream), w.heap p = some a →
        (a.open_ = true ↔ w.chip.alsa_stream a.idx = some p)) := by
  obtain ⟨hmask, _⟩ := in_range_mask w hreach
  obtain ⟨hslot, _⟩ := reachable_registry w (reachable_of_in_range w hreach)
  refine ⟨?_, hslot, ?_⟩
  · intro i hi
    rw [← hmask i hi, Option.isSome_iff_exists]
  · intro hex p a ha
    constructor
    · exact exclusive_held w hex p a ha
    · intro hs
      obtain ⟨b, hb, hbo, _⟩ := hslot a.idx p hs
      rw [ha] at hb
      simp only [Option.some.injEq] at hb
      rw [hb]
      exact hbo

/-- C11 (amended), at a concrete state: after the playback substream of device 0 was
opened on the empty registry, slot 0 holds record 0, bit 0 is set, and record 0 is open
with `idx = 0`. -/
theorem registry_consistency_witness :
    ReachableInRange world_opened ∧ ReachableExclusive world_opened ∧
    world_opened.chip.alsa_stream 0 = some 0 ∧
    world_opened.chip.opened.testBit 0 = true ∧
    world_opened.heap 0 = some stream_opened ∧
    (stream_opened.open_ = true ↔
      world_opened.chip.alsa_stream stream_opened.idx = some 0) := by
  have hreach : ReachableInRange world_opened :=
    ReachableInRange.step World.empty world_opened (Op.Open playback0 (open_ok 0 0))
      ReachableInRange.init (by simp [op_in_range, playback0]) rfl
  have hex : ReachableExclusive world_opened :=
    ReachableExclusive.step World.empty world_opened (Op.Open playback0 (open_ok 0 0))
      ReachableExclusive.init rfl rfl
  have hheap : world_opened.heap 0 = some stream_opened := by decide
  obtain ⟨hmask, _, hheld⟩ := registry_consistency world_opened hreach
  exact ⟨hreach, hex, by decide, (hmask 0 (by decide)).mp ⟨0, by decide⟩, hheap,
    hheld hex 0 stream_opened hheap⟩

/-! ## The order of effects in Close and Prepare -/

theorem close_effects_agree (w : World) (s : snd_pcm_substream) (env : close_env)
    (p : Nat) (a : aoc_alsa_stream)
    (hp : w.private_data s = some p) (ha : w.heap p = some a) :
    snd_aoc_pcm_close w s env
      = some (apply_effects p w (snd_aoc_pcm_close_effects a env),
              if env.lock_interrupted = true then -EINTR else 0) := by
  cases hl : env.lock_interrupted <;> cases hr : a.running <;> cases ho : a.open_ <;>
    simp [snd_aoc_pcm_close, snd_aoc_pcm_close_effects, apply_effects, apply_effect,
      store_stream, aoc_timer_stop_sync, hp, ha, hl, hr, ho]

theorem prepare_effects_agree (w : World) (s : snd_pcm_substream) (env : prepare_env)
    (p : Nat) (a : aoc_alsa_stream)
    (hp : w.private_data s = some p) (ha : w.heap p = some a) :
    snd_aoc_pcm_prepare w s env
      = some (apply_effects p w (snd_aoc_pcm_prepare_effects s a env),
              if env.lock_interrupted = true then -EINTR
              else env.prepare_phonecall_ret) := by
  cases hl : env.lock_interrupted <;>
    simp [snd_aoc_pcm_prepare, snd_aoc_pcm_prepare_effects, apply_effects, apply_effect,
      store_stream, aoc_timer_stop_sync, hp, ha, hl]

theorem apply_effect_timer_stopped (p : Nat) (w : World) (e : Effect)
    (ht : (w.heap p).map (fun b => b.timer_pending) = some false)
    (hno : ∀ s1 : snd_pcm_substream, e ≠ Effect.call (Event.aoc_timer_start s1)) :
    ((apply_effect p w e).heap p).map (fun b => b.timer_pending) = some false := by
  cases hb : w.heap p with
  | none => rw [hb] at ht; simp at ht
  | some b =>
    rw [hb] at ht
    simp only [Option.map_some', Option.some.injEq] at ht
    cases e with
    | call ev =>
      cases ev with
      | aoc_timer_start s1 => exact absurd rfl (hno s1)
      | aoc_timer_stop_sync s1 =>
        simp [apply_effect, store_stream, hb, aoc_timer_stop_sync]
      | _ => simp [apply_effect, hb, ht]
    | clear_slot idx => simp [apply_effect, hb, ht]
    | clear_opened_bit idx => simp [apply_effect, hb, ht]
    | _ => simp [apply_effect, store_stream, hb, ht]

theorem apply_effects_timer_stopped (p : Nat) (effs : List Effect) :
    ∀ w : World, (w.heap p).map (fun b => b.timer_pending) = some false →
      (∀ s1 : snd_pcm_substream, Effect.call (Event.aoc_timer_start s1) ∉ effs) →
      ((apply_effects p w effs).heap p).map (fun b => b.timer_pending) = some false := by
  induction effs with
  | nil => intro w ht _; exact ht
  | cons e rest ih =>
    intro w ht hno
    have h1 := apply_effect_timer_stopped p w e ht
      (fun s1 h => hno s1 (by rw [h]; exact List.mem_cons_self _ _))
    exact ih (apply_effect p w e) h1 (fun s1 h => hno s1 (List.mem_cons_of_mem _ h))

theorem stopped_after_first (p : Nat) (w : World) (a : aoc_alsa_stream)
    (ha : w.heap p = some a) (rest : List Effect)
    (hno : ∀ s1 : snd_pcm_substream, Effect.call (Event.aoc_timer_start s1) ∉ rest)
    (k : Nat) (hk : 1 ≤ k) :
    ∃ b : aoc_alsa_stream,
      (apply_effects p w
        ((Effect.call (Event.aoc_timer_stop_sync a.substream) :: rest).take k)).heap p
        = some b ∧ b.timer_pending = false := by
  obtain ⟨j, rfl⟩ : ∃ j, k = j + 1 := ⟨k - 1, by omega⟩
  rw [List.take_succ_cons]
  have h1 : ((apply_effect p w
      (Effect.call (Event.aoc_timer_stop_sync a.substream))).heap p).map
      (fun b => b.timer_pending) = some false := by
    simp [apply_effect, store_stream, ha, aoc_timer_stop_sync]
  have h2 := apply_effects_timer_stopped p (rest.take j) _ h1
    (fun s1 h => hno s1 (List.mem_of_mem_take h))
  rw [Option.map_eq_some'] at h2
  exact h2

/-- C17: in every execution of Close and of Prepare on a stream record, the callback is
the sequence of effects `snd_aoc_pcm_close_effects` / `snd_aoc_pcm_prepare_effects`; that
sequence begins with the call of `aoc_timer_stop_sync`, followed by the lock acquisition,
so every store to the stream record or the registry comes after both; no later effect
starts the timer, and after every non-empty prefix of the sequence the stream's timer is
not pending: `hw_ptr_base`, `prev_consumed`, `n_overflow`, `pos`, `buffer_size` and
`period_size` are never written while the timer is armed. -/
theorem stop_then_lock_then_mutate (w : World) (s : snd_pcm_substream)
    (cenv : close_env) (penv : prepare_env) (p : Nat) (a : aoc_alsa_stream)
    (hp : w.private_data s = some p) (ha : w.heap p = some a) :
    (snd_aoc_pcm_close w s cenv
        = some (apply_effects p w (snd_aoc_pcm_close_effects a cenv),
                if cenv.lock_interrupted = true then -EINTR else 0) ∧
      (∃ rest : List Effect,
        snd_aoc_pcm_close_effects a cenv
          = Effect.call (Event.aoc_timer_stop_sync a.substream) ::
            Effect.call (Event.mutex_lock_interruptible (!cenv.lock_interrupted)) :: rest ∧
        (∀ s1 : snd_pcm_substream, Effect.call (Event.aoc_timer_start s1) ∉ rest) ∧
        (cenv.lock_interrupted = true → rest = [])) ∧
      (∀ k : Nat, 1 ≤ k → ∃ b : aoc_alsa_stream,
        (apply_effects p w ((snd_aoc_pcm_close_effects a cenv).take k)).heap p = some b ∧
        b.timer_pending = false)) ∧
    (snd_aoc_pcm_prepare w s penv
        = some (apply_effects p w (snd_aoc_pcm_prepare_effects s a penv),
                if penv.lock_interrupted = true then -EINTR
                else penv.prepare_phonecall_ret) ∧
      (∃ rest : List Effect,
        snd_aoc_pcm_prepare_effects s a penv
          = Effect.call (Event.aoc_timer_stop_sync a.substream) ::
            Effect.call (Event.mutex_lock_interruptible (!penv.lock_interrupted)) :: rest ∧
        (∀ s1 : snd_pcm_substream, Effect.call (Event.aoc_timer_start s1) ∉ rest) ∧
        (penv.lock_interrupted = true → rest = [])) ∧
      (∀ k : Nat, 1 ≤ k → ∃ b : aoc_alsa_stream,
        (apply_effects p w ((snd_aoc_pcm_prepare_effects s a penv).take k)).heap p
          = some b ∧
        b.timer_pending = false)) := by
  have hclose : ∃ rest : List Effect,
      snd_aoc_pcm_close_effects a cenv
        = Effect.call (Event.aoc_timer_stop_sync a.substream) ::
          Effect.call (Event.mutex_lock_interruptible (!cenv.lock_interrupted)) :: rest ∧
      (∀ s1 : snd_pcm_substream, Effect.call (Event.aoc_timer_start s1) ∉ rest) ∧
      (cenv.lock_interrupted = true → rest = []) := by
    refine ⟨_, rfl, ?_, ?_⟩
    · intro s1
      cases cenv.lock_interrupted <;> cases a.running <;> cases a.open_ <;> simp
    · intro h
      simp [h]
  have hprepare : ∃ rest : List Effect,
      snd_aoc_pcm_prepare_effects s a penv
        = Effect.call (Event.aoc_timer_stop_sync a.substream) ::
          Effect.call (Event.mutex_lock_interruptible (!penv.lock_interrupted)) :: rest ∧
      (∀ s1 : snd_pcm_substream, Effect.call (Event.aoc_timer_start s1) ∉ rest) ∧
      (penv.lock_interrupted = true → rest = []) := by
    refine ⟨_, rfl, ?_, ?_⟩
    · intro s1
      cases penv.lock_interrupted <;> simp
    · intro h
      simp [h]
  refine ⟨⟨close_effects_agree w s cenv p a hp ha, hclose, ?_⟩,
    ⟨prepare_effects_agree w s penv p a hp ha, hprepare, ?_⟩⟩
  · obtain ⟨rest, hshape, hno, _⟩ := hclose
    intro k hk
    rw [hshape]
    exact stopped_after_first p w a ha _
      (fun s1 h => by
        rcases List.mem_cons.mp h with h1 | h1
        · exact absurd h1 (by simp)
        · exact hno s1 h1) k hk
  · obtain ⟨rest, hshape, hno, _⟩ := hprepare
    intro k hk
    rw [hshape]
    exact stopped_after_first p w a ha _
      (fun s1 h => by
        rcases List.mem_cons.mp h with h1 | h1
        · exact absurd h1 (by simp)
        · exact hno s1 h1) k hk

/-- C17, at a concrete input: closing and preparing the running playback stream of
device 0 (timer armed on entry).  Close is the sequence stop, lock, teardown, release of
the service, data-flow stop, the five stores to the record, the two stores to the
registry, unlock; after its first six effects (the first store done) and after the first
five effects of Prepare (its first store done) the timer is not pending. -/
theorem stop_then_lock_then_mutate_witness :
    world_running.private_data playback0 = some 0 ∧
    world_running.heap 0 = some stream_running ∧
    stream_running.timer_pending = true ∧
    snd_aoc_pcm_close world_running playback0 close_errors
      = some (apply_effects 0 world_running
                (snd_aoc_pcm_close_effects stream_running close_errors), 0) ∧
    snd_aoc_pcm_close_effects stream_running close_errors
      = [Effect.call (Event.aoc_timer_stop_sync playback0),
         Effect.call (Event.mutex_lock_interruptible true),
         Effect.call (Event.teardown_phonecall playback0 (-5)),
         Effect.call (Event.free_aoc_audio_service 0),
         Effect.call (Event.aoc_audio_stop playback0 (-5)),
         Effect.set_running false,
         Effect.set_period_size 0, Effect.set_buffer_size 0,
         Effect.set_open false, Effect.call (Event.aoc_audio_close playback0),
         Effect.clear_slot 0, Effect.clear_opened_bit 0,
         Effect.call Event.mutex_unlock] ∧
    (∃ b : aoc_alsa_stream,
      (apply_effects 0 world_running
        ((snd_aoc_pcm_close_effects stream_running close_errors).take 6)).heap 0 = some b ∧
      b.timer_pending = false) ∧
    snd_aoc_pcm_prepare world_running playback0 (prepare_ok 1920 0)
      = some (apply_effects 0 world_running
                (snd_aoc_pcm_prepare_effects playback0 stream_running (prepare_ok 1920 0)),
              0) ∧
    (∃ b : aoc_alsa_stream,
      (apply_effects 0 world_running
        ((snd_aoc_pcm_prepare_effects playback0 stream_running
            (prepare_ok 1920 0)).take 5)).heap 0 = some b ∧
      b.timer_pending = false) := by
  have hp : world_running.private_data playback0 = some 0 := by decide
  have ha : world_running.heap 0 = some stream_running := by decide
  obtain ⟨⟨hc, _, hcp⟩, ⟨hpr, _, hpp⟩⟩ :=
    stop_then_lock_then_mutate world_running playback0 close_errors (prepare_ok 1920 0) 0
      stream_running hp ha
  exact ⟨hp, ha, by decide, hc, by decide, hcp 6 (by decide), hpr, hpp 5 (by decide)⟩

end AocVoice
